import Mathlib

/-!
Verification of the graph-data classification, layout and traversal
algorithms of the hips-multihazard repository, as a shallow embedding in
Lean 4.

The embedding follows the JavaScript source module by module:

* JavaScript Map objects are modelled as association lists with
  insertion-order preservation and update-in-place on an existing key
  (setEntry / getEntry below), which is exactly the observable Map
  semantics for the string keys the source uses.
* JavaScript Set objects are modelled as lists with membership-guarded
  insertion.
* Array.prototype.sort with a numeric comparator (b.х - a.х style,
  descending) is modelled by a stable insertion sort on a Nat key
  (sortDescBy below); the source relies on stable descending order only.
* Absent optional fields are modelled by their JavaScript falsy defaults:
  a missing causes / causedBy array is the empty list, a missing string is
  the empty string (the source reads them as x || fallback).
* Floating point numerics that only flow through to presentation
  (angles, radii) are modelled over the rationals; the float constants pi,
  cos and sin are abstract parameters, which is sound because every IEEE
  double is a rational and Math.cos / Math.sin are pure functions.
-/

namespace Hips

/-! ## Association-list model of a JavaScript Map -/

/-- Model of a JavaScript Map: update the first (hence only) occurrence of
the key in place, else append the new entry, preserving insertion order. -/
def setEntry {κ ν : Type} [DecidableEq κ] : List (κ × ν) → κ → ν → List (κ × ν)
  | [], k, v => [(k, v)]
  | p :: t, k, v => if p.1 = k then (k, v) :: t else p :: setEntry t k v

/-- Model of Map.get: the value at the first occurrence of the key. -/
def getEntry {κ ν : Type} [DecidableEq κ] : List (κ × ν) → κ → Option ν
  | [], _ => none
  | p :: t, k => if p.1 = k then some p.2 else getEntry t k

/-- Model of the Map-of-arrays push idiom:
if (!m.has(k)) m.set(k, []); m.get(k).push(v). -/
def pushEntry {κ α : Type} [DecidableEq κ] (m : List (κ × List α)) (k : κ) (a : α) :
    List (κ × List α) :=
  setEntry m k ((getEntry m k).getD [] ++ [a])

theorem getEntry_setEntry_self {κ ν : Type} [DecidableEq κ] (m : List (κ × ν)) (k : κ) (v : ν) :
    getEntry (setEntry m k v) k = some v := by
  induction m with
  | nil => simp [setEntry, getEntry]
  | cons p t ih =>
    by_cases h : p.1 = k
    · simp [setEntry, getEntry, h]
    · simp [setEntry, getEntry, h, ih]

theorem getEntry_setEntry_ne {κ ν : Type} [DecidableEq κ] (m : List (κ × ν)) {k k' : κ} (v : ν)
    (h : k' ≠ k) : getEntry (setEntry m k v) k' = getEntry m k' := by
  have hk : k ≠ k' := Ne.symm h
  induction m with
  | nil => simp [setEntry, getEntry, hk]
  | cons p t ih =>
    rcases p with ⟨a, b⟩
    by_cases hp : a = k
    · subst hp
      simp [setEntry, getEntry, hk]
    · by_cases hp' : a = k'
      · simp [setEntry, getEntry, hp, hp', h]
      · simp [setEntry, getEntry, hp, hp', ih]

theorem getEntry_eq_some_mem {κ ν : Type} [DecidableEq κ] {m : List (κ × ν)} {k : κ} {v : ν}
    (h : getEntry m k = some v) : (k, v) ∈ m := by
  induction m with
  | nil => simp [getEntry] at h
  | cons p t ih =>
    rcases p with ⟨a, b⟩
    by_cases hp : a = k
    · subst hp
      have hv : b = v := by simpa [getEntry] using h
      subst hv
      exact List.mem_cons_self _ _
    · exact List.mem_cons_of_mem _ (ih (by simpa [getEntry, hp] using h))

theorem mem_setEntry {κ ν : Type} [DecidableEq κ] {m : List (κ × ν)} {k : κ} {v : ν} {q : κ × ν}
    (h : q ∈ setEntry m k v) : q = (k, v) ∨ q ∈ m := by
  induction m with
  | nil => simpa [setEntry] using h
  | cons p t ih =>
    by_cases hp : p.1 = k
    · simp [setEntry, hp] at h
      rcases h with h | h
      · exact Or.inl h
      · exact Or.inr (List.mem_cons_of_mem _ h)
    · simp [setEntry, hp] at h
      rcases h with h | h
      · exact Or.inr (by simp [h])
      · rcases ih h with h' | h'
        · exact Or.inl h'
        · exact Or.inr (List.mem_cons_of_mem _ h')

theorem getEntry_pushEntry_self {κ α : Type} [DecidableEq κ] (m : List (κ × List α)) (k : κ) (a : α) :
    getEntry (pushEntry m k a) k = some ((getEntry m k).getD [] ++ [a]) :=
  getEntry_setEntry_self m k _

theorem getEntry_pushEntry_ne {κ α : Type} [DecidableEq κ] (m : List (κ × List α)) {k k' : κ} (a : α)
    (h : k' ≠ k) : getEntry (pushEntry m k a) k' = getEntry m k' :=
  getEntry_setEntry_ne m _ h

/-! Generic facts about a left fold that performs one setEntry per element. -/

theorem getEntry_foldl_setEntry_of_not_mem {α κ ν : Type} [DecidableEq κ] (keyOf : α → κ) (valOf : α → ν)
    (l : List α) (m : List (κ × ν)) (k : κ) (h : ∀ x ∈ l, keyOf x ≠ k) :
    getEntry (l.foldl (fun acc x => setEntry acc (keyOf x) (valOf x)) m) k = getEntry m k := by
  induction l generalizing m with
  | nil => rfl
  | cons a t ih =>
    have ha : keyOf a ≠ k := h a (List.mem_cons_self a t)
    rw [List.foldl_cons, ih _ (fun x hx => h x (List.mem_cons_of_mem a hx)),
      getEntry_setEntry_ne _ _ (fun hk => ha hk.symm)]

theorem getEntry_foldl_setEntry_of_mem {α κ ν : Type} [DecidableEq κ] (keyOf : α → κ) (valOf : α → ν)
    (l : List α) (m : List (κ × ν)) {k : κ} (h : ∃ x ∈ l, keyOf x = k) :
    ∃ x ∈ l, keyOf x = k ∧
      getEntry (l.foldl (fun acc x => setEntry acc (keyOf x) (valOf x)) m) k = some (valOf x) := by
  induction l generalizing m with
  | nil => simp at h
  | cons a t ih =>
    by_cases ht : ∃ x ∈ t, keyOf x = k
    · obtain ⟨x, hx, hk, hv⟩ := ih (setEntry m (keyOf a) (valOf a)) ht
      exact ⟨x, List.mem_cons_of_mem a hx, hk, by simpa using hv⟩
    · obtain ⟨x, hx, hk⟩ := h
      have hxa : x = a := by
        rcases List.mem_cons.mp hx with h' | h'
        · exact h'
        · exact absurd ⟨x, h', hk⟩ ht
      subst hxa
      refine ⟨x, List.mem_cons_self x t, hk, ?_⟩
      rw [List.foldl_cons,
        getEntry_foldl_setEntry_of_not_mem keyOf valOf t _ k (fun y hy hk' => ht ⟨y, hy, hk'⟩),
        hk, getEntry_setEntry_self]

theorem getEntry_foldl_setEntry_eq_some {α κ ν : Type} [DecidableEq κ] (keyOf : α → κ) (valOf : α → ν)
    (l : List α) (m : List (κ × ν)) {k : κ} {v : ν}
    (h : getEntry (l.foldl (fun acc x => setEntry acc (keyOf x) (valOf x)) m) k = some v) :
    (∃ x ∈ l, keyOf x = k) ∨ getEntry m k = some v := by
  by_cases hl : ∃ x ∈ l, keyOf x = k
  · exact Or.inl hl
  · right
    rw [getEntry_foldl_setEntry_of_not_mem keyOf valOf l m k
      (fun x hx hk => hl ⟨x, hx, hk⟩)] at h
    exact h

/-- Nodup of the mapped keys makes a list-of-entities injective on its key. -/
theorem eq_of_nodup_map_key {α κ : Type} {f : α → κ} {l : List α}
    (hn : (l.map f).Nodup) {a b : α} (ha : a ∈ l) (hb : b ∈ l) (hf : f a = f b) : a = b :=
  List.inj_on_of_nodup_map hn ha hb hf

/-! ## Stable descending sort on a Nat key

Models Array.prototype.sort with the comparator (a, b) => key(b) - key(a)
used throughout the source: a stable sort yielding descending key order. -/

/-- Insert an element into a descending-sorted list, before the first element
whose key is not larger (so equal keys keep their original relative order). -/
def insertDescBy {α : Type} (key : α → Nat) (a : α) : List α → List α
  | [] => [a]
  | b :: l => if key b ≤ key a then a :: b :: l else b :: insertDescBy key a l

/-- Stable descending insertion sort by a Nat key. -/
def sortDescBy {α : Type} (key : α → Nat) : List α → List α
  | [] => []
  | a :: l => insertDescBy key a (sortDescBy key l)

theorem perm_insertDescBy {α : Type} (key : α → Nat) (a : α) (l : List α) :
    List.Perm (insertDescBy key a l) (a :: l) := by
  induction l with
  | nil => rfl
  | cons b t ih =>
    by_cases h : key b ≤ key a
    · simp [insertDescBy, h]
    · rw [insertDescBy, if_neg h]
      exact ((ih.cons b).trans (List.Perm.swap a b t))

theorem perm_sortDescBy {α : Type} (key : α → Nat) (l : List α) :
    List.Perm (sortDescBy key l) l := by
  induction l with
  | nil => rfl
  | cons a t ih => exact (perm_insertDescBy key a (sortDescBy key t)).trans (ih.cons a)

theorem mem_sortDescBy {α : Type} (key : α → Nat) (l : List α) (x : α) :
    x ∈ sortDescBy key l ↔ x ∈ l :=
  (perm_sortDescBy key l).mem_iff

theorem sorted_insertDescBy {α : Type} (key : α → Nat) (a : α) {l : List α}
    (h : l.Pairwise (fun x y => key y ≤ key x)) :
    (insertDescBy key a l).Pairwise (fun x y => key y ≤ key x) := by
  induction l with
  | nil => simp [insertDescBy]
  | cons b t ih =>
    rcases List.pairwise_cons.mp h with ⟨hb, ht⟩
    by_cases hba : key b ≤ key a
    · rw [insertDescBy, if_pos hba]
      refine List.pairwise_cons.mpr ⟨?_, h⟩
      intro y hy
      rcases List.mem_cons.mp hy with rfl | hy
      · exact hba
      · exact le_trans (hb y hy) hba
    · rw [insertDescBy, if_neg hba]
      refine List.pairwise_cons.mpr ⟨?_, ih ht⟩
      intro y hy
      rcases List.mem_cons.mp ((perm_insertDescBy key a t).mem_iff.mp hy) with rfl | hy
      · exact le_of_not_le hba
      · exact hb y hy

theorem sorted_sortDescBy {α : Type} (key : α → Nat) (l : List α) :
    (sortDescBy key l).Pairwise (fun x y => key y ≤ key x) := by
  induction l with
  | nil => simp [sortDescBy]
  | cons a t ih => exact sorted_insertDescBy key a ih

/-! ## Source constants

From src/views/cascade/constants.js and src/graph/constants.js. -/

/-- Maximum children shown per cascade branch before truncation. -/
def MAX_CHILDREN : Nat := 15

/-- Maximum cascade expansion depth. -/
def MAX_DEPTH : Nat := 4

/-- Minimum cross-type edges between two types for a hyper-route candidate. -/
def HYPER_ROUTE_EDGE_THRESHOLD : Nat := 40

/-- Minimum cross-type edges a single node needs to be a bridge node. -/
def HYPER_ROUTE_BRIDGE_MIN : Nat := 3

/-- Maximum number of hyper-route corridors returned. -/
def MAX_HYPER_ROUTES : Nat := 5

/-- Radii for each orbital ring (index 0 is the unused center). -/
def ORBIT_RADII : List ℚ := [0, 150, 320, 520, 750, 1000, 1350]

/-- Per-orbit jitter magnitude. -/
def ORBIT_JITTER : List ℚ := [0, 25, 30, 35, 40, 45, 60]

/-- The curated hazard-type ordering of src/graph/hyperspace-layout.js. -/
def TYPE_ORDER : List String :=
  ["Meteorological and Hydrological", "Technological", "Geological", "Chemical",
   "Extraterrestrial", "Societal", "Biological", "Environmental"]

/-! ## seededJitter (src/graph/hyperspace-layout.js)

The hash loop h = ((h << 5) - h + id.charCodeAt(i)) | 0 keeps h a signed
32-bit integer; on the unsigned representative one step is
(31 * h + c) mod 2^32, and h & 0x7fffffff is the representative mod 2^31. -/

/-- One step of the 32-bit string hash of seededJitter. -/
def hashStep (h : Nat) (c : Char) : Nat := (31 * h + c.toNat) % 4294967296

/-- The full string hash of seededJitter, on the unsigned 32-bit representative. -/
def hashString (s : String) : Nat := s.data.foldl hashStep 0

/-- seededJitter from src/graph/hyperspace-layout.js:
((h & 0x7fffffff) % 1000) / 500 - 1, the division taken exactly over ℚ. -/
def seededJitter (id : String) : ℚ :=
  (((hashString id % 2147483648) % 1000 : Nat) : ℚ) / 500 - 1

/-! ## assignOrbits (src/graph/hyperspace-layout.js) -/

/-- A non-compound node as the hyperspace layout sees it: id, typeName
(empty string for a missing one) and the derived connectionCount. -/
structure HNode where
  id : String
  typeName : String
  connectionCount : Nat
deriving DecidableEq, Repr

/-- assignOrbits: orbit 6 for zero-connection nodes, orbits 1-5 as
quantile buckets of the remaining nodes sorted descending by
connectionCount, bucket size ceil(count / 5). -/
def assignOrbits (nodes : List HNode) : List (String × Nat) :=
  let connected := nodes.filter (fun n => n.connectionCount ≠ 0)
  let zeroConn := nodes.filter (fun n => n.connectionCount = 0)
  let sorted := sortDescBy (fun n => n.connectionCount) connected
  let bucketSize := (sorted.length + 4) / 5
  let m1 := sorted.enum.foldl
    (fun m p => setEntry m p.2.id (min (p.1 / bucketSize + 1) 5)) []
  zeroConn.foldl (fun m n => setEntry m n.id 6) m1

theorem exists_enum_of_mem {α : Type} {l : List α} {x : α} (h : x ∈ l) :
    ∃ p ∈ l.enum, p.2 = x := by
  have he : l.enum.map Prod.snd = l := List.enum_map_snd l
  rw [← he] at h
  exact List.mem_map.mp h

theorem snd_mem_of_mem_enum {α : Type} {l : List α} {p : Nat × α} (h : p ∈ l.enum) :
    p.2 ∈ l := by
  have he : l.enum.map Prod.snd = l := List.enum_map_snd l
  rw [← he]
  exact List.mem_map_of_mem Prod.snd h

/-- C8: for every string id, seededJitter id lies in the interval [-1, 1],
and seededJitter is a pure function of the id alone: equal ids always hash
to equal jitter values. -/
theorem claim_C8_seededJitter_bounded_pure (id : String) :
    (-1 ≤ seededJitter id ∧ seededJitter id ≤ 1) ∧
      ∀ id2 : String, id2 = id → seededJitter id2 = seededJitter id := by
  refine ⟨⟨?_, ?_⟩, fun id2 h => by rw [h]⟩
  · have h0 : (0 : ℚ) ≤ (((hashString id % 2147483648) % 1000 : Nat) : ℚ) / 500 := by
      positivity
    unfold seededJitter
    linarith
  · have hm : (hashString id % 2147483648) % 1000 < 1000 := Nat.mod_lt _ (by norm_num)
    have h2 : (((hashString id % 2147483648) % 1000 : Nat) : ℚ) ≤ 999 := by
      exact_mod_cast Nat.lt_succ_iff.mp hm
    have h3 : (((hashString id % 2147483648) % 1000 : Nat) : ℚ) / 500 ≤ 999 / 500 :=
      (div_le_div_iff_of_pos_right (by norm_num)).mpr h2
    have h4 : (999 : ℚ) / 500 ≤ 2 := by norm_num
    unfold seededJitter
    linarith

/-- The two folds of assignOrbits, written out for rewriting in proofs. -/
theorem assignOrbits_eq (nodes : List HNode) :
    assignOrbits nodes =
      (nodes.filter (fun n => n.connectionCount = 0)).foldl
        (fun m n => setEntry m n.id 6)
        ((sortDescBy (fun n => n.connectionCount)
            (nodes.filter (fun n => n.connectionCount ≠ 0))).enum.foldl
          (fun m p => setEntry m p.2.id
            (min (p.1 / (((sortDescBy (fun n => n.connectionCount)
              (nodes.filter (fun n => n.connectionCount ≠ 0))).length + 4) / 5) + 1) 5)) []) :=
  rfl

/-- C4: assignOrbits is a partition: with pairwise-distinct entity ids,
every input entity is assigned exactly one orbit number in 1..6, the orbit
is 6 exactly when the entity has zero connectionCount (so orbits 1-5
together hold exactly the entities with nonzero connectionCount), and the
orbit map mentions no id outside the input. -/
theorem claim_C4_orbit_partition (nodes : List HNode)
    (hids : (nodes.map (fun n => n.id)).Nodup) :
    (∀ n ∈ nodes, ∃ ob, getEntry (assignOrbits nodes) n.id = some ob ∧
        1 ≤ ob ∧ ob ≤ 6 ∧ (ob = 6 ↔ n.connectionCount = 0)) ∧
    (∀ k ob, getEntry (assignOrbits nodes) k = some ob → ∃ n ∈ nodes, n.id = k) := by
  rw [assignOrbits_eq]
  constructor
  · intro n hn
    by_cases hcc : n.connectionCount = 0
    · -- n lands in the zero-connection fold, which assigns orbit 6
      have hz : n ∈ nodes.filter (fun n => n.connectionCount = 0) :=
        List.mem_filter.mpr ⟨hn, by simp [hcc]⟩
      obtain ⟨x, hx, hk, hv⟩ := getEntry_foldl_setEntry_of_mem
        (fun n : HNode => n.id) (fun _ : HNode => 6)
        (nodes.filter (fun n => n.connectionCount = 0)) _ ⟨n, hz, rfl⟩
      exact ⟨6, hv, by norm_num, by norm_num, by simp [hcc]⟩
    · -- n lands in the quantile fold, which assigns an orbit in 1..5
      have hc : n ∈ nodes.filter (fun n => n.connectionCount ≠ 0) :=
        List.mem_filter.mpr ⟨hn, by simp [hcc]⟩
      have hs : n ∈ sortDescBy (fun n => n.connectionCount)
          (nodes.filter (fun n => n.connectionCount ≠ 0)) :=
        (mem_sortDescBy _ _ n).mpr hc
      have hnotz : ∀ x ∈ nodes.filter (fun n => n.connectionCount = 0), x.id ≠ n.id := by
        intro x hx hxid
        have hxn : x ∈ nodes := (List.mem_filter.mp hx).1
        have hxeq : x = n := eq_of_nodup_map_key hids hxn hn hxid
        subst hxeq
        exact hcc (by simpa using (List.mem_filter.mp hx).2)
      rw [getEntry_foldl_setEntry_of_not_mem (fun n : HNode => n.id) (fun _ : HNode => 6)
        _ _ _ hnotz]
      obtain ⟨p, hp, hpid⟩ := exists_enum_of_mem hs
      obtain ⟨q, hq, hqk, hv⟩ := getEntry_foldl_setEntry_of_mem
        (fun p : Nat × HNode => p.2.id)
        (fun p : Nat × HNode =>
          min (p.1 / (((sortDescBy (fun n => n.connectionCount)
            (nodes.filter (fun n => n.connectionCount ≠ 0))).length + 4) / 5) + 1) 5)
        _ [] ⟨p, hp, show (fun p : Nat × HNode => p.2.id) p = n.id by simp [hpid]⟩
      refine ⟨_, hv, le_min (Nat.succ_le_succ (Nat.zero_le _)) (by norm_num),
        le_trans (min_le_right _ _) (by norm_num), ?_⟩
      have h5 : min (q.1 / (((sortDescBy (fun n => n.connectionCount)
          (nodes.filter (fun n => n.connectionCount ≠ 0))).length + 4) / 5) + 1) 5 ≤ 5 :=
        min_le_right _ _
      constructor
      · intro h6
        omega
      · intro h0
        exact absurd h0 hcc
  · intro k ob h
    rcases getEntry_foldl_setEntry_eq_some (fun n : HNode => n.id) (fun _ : HNode => 6)
        _ _ h with ⟨x, hx, hk⟩ | h2
    · exact ⟨x, (List.mem_filter.mp hx).1, hk⟩
    · rcases getEntry_foldl_setEntry_eq_some
          (fun p : Nat × HNode => p.2.id)
          (fun p : Nat × HNode =>
            min (p.1 / (((sortDescBy (fun n => n.connectionCount)
              (nodes.filter (fun n => n.connectionCount ≠ 0))).length + 4) / 5) + 1) 5)
          _ _ h2 with ⟨p, hp, hk⟩ | h3
      · have hmem : p.2 ∈ nodes :=
          (List.mem_filter.mp ((mem_sortDescBy _ _ _).mp (snd_mem_of_mem_enum hp))).1
        exact ⟨p.2, hmem, hk⟩
      · simp [getEntry] at h3

/-- Witness for C4 at a concrete two-entity input. -/
theorem claim_C4_orbit_partition_witness :
    ((([⟨"a", "T", 2⟩, ⟨"b", "T", 0⟩] : List HNode).map (fun n => n.id)).Nodup) ∧
    ((∀ n ∈ ([⟨"a", "T", 2⟩, ⟨"b", "T", 0⟩] : List HNode),
        ∃ ob, getEntry (assignOrbits [⟨"a", "T", 2⟩, ⟨"b", "T", 0⟩]) n.id = some ob ∧
          1 ≤ ob ∧ ob ≤ 6 ∧ (ob = 6 ↔ n.connectionCount = 0)) ∧
      (∀ k ob, getEntry (assignOrbits [⟨"a", "T", 2⟩, ⟨"b", "T", 0⟩]) k = some ob →
        ∃ n ∈ ([⟨"a", "T", 2⟩, ⟨"b", "T", 0⟩] : List HNode), n.id = k)) :=
  ⟨by decide, claim_C4_orbit_partition _ (by decide)⟩

/-! ## Snapshot data model

A node of the loaded snapshot as the data modules read it
(src/data/transform.js, src/views/cascade/cascade-data.js and the
edge-bundling transform): absent causes / causedBy arrays are modelled as
the empty list, absent label / typeName / clusterName strings as the empty
string, matching the x || fallback reads of the source. -/

structure SnapNode where
  id : String
  label : String
  typeName : String
  clusterName : String
  causes : List String
  causedBy : List String
deriving DecidableEq, Repr

/-- A raw snapshot edge { source, target }. -/
structure SnapEdge where
  source : String
  target : String
deriving DecidableEq, Repr

/-- An entry of the effects / triggers adjacency indices: { id, declared }. -/
structure AdjEntry where
  id : String
  declared : Bool
deriving DecidableEq, Repr

/-- connectionCount of a neighbor looked up through nodeById:
(aNode?.causes?.length || 0) + (aNode?.causedBy?.length || 0). -/
def ccOf (nodeById : List (String × SnapNode)) (id : String) : Nat :=
  match getEntry nodeById id with
  | some n => n.causes.length + n.causedBy.length
  | none => 0

/-- The declared flag computed for an edge:
targetCausedBy ? targetCausedBy.has(edge.source) : false. -/
def declaredFlag (causedBySet : List (String × List String)) (e : SnapEdge) : Bool :=
  match getEntry causedBySet e.target with
  | some s => s.contains e.source
  | none => false

/-- The causedBy lookup both builders construct:
a Map from node id to the Set of its causedBy ids. -/
def causedBySetOf (nodes : List SnapNode) : List (String × List String) :=
  nodes.foldl (fun m n => setEntry m n.id n.causedBy) []

/-- The result record of buildAdjacencyIndex. -/
structure AdjIndex where
  effectsIndex : List (String × List AdjEntry)
  triggersIndex : List (String × List AdjEntry)
  nodeById : List (String × SnapNode)

/-- The nodeById Map both cascade builders construct. -/
def nodeByIdOf (nodes : List SnapNode) : List (String × SnapNode) :=
  nodes.foldl (fun m n => setEntry m n.id n) []

/-- One edge of the buildAdjacencyIndex loop: push { id: target, declared }
onto the forward list of the source and { id: source, declared } onto the
reverse list of the target. -/
def adjStep (causedBySet : List (String × List String))
    (st : List (String × List AdjEntry) × List (String × List AdjEntry)) (e : SnapEdge) :
    List (String × List AdjEntry) × List (String × List AdjEntry) :=
  let declared := declaredFlag causedBySet e
  (pushEntry st.1 e.source ⟨e.target, declared⟩,
   pushEntry st.2 e.target ⟨e.source, declared⟩)

/-- The per-entry sort of both indices: neighbor connectionCount descending. -/
def sortAdjIndex (nodeById : List (String × SnapNode))
    (idx : List (String × List AdjEntry)) : List (String × List AdjEntry) :=
  idx.map (fun p => (p.1, sortDescBy (fun a => ccOf nodeById a.id) p.2))

/-- buildAdjacencyIndex from src/views/cascade/cascade-data.js: one pass
over the edges pushing { id, declared } entries into the forward (effects)
and reverse (triggers) maps, then each list sorted by the neighbor
connectionCount descending. -/
def buildAdjacencyIndex (nodes : List SnapNode) (edges : List SnapEdge) : AdjIndex :=
  let built := edges.foldl (adjStep (causedBySetOf nodes)) ([], [])
  { effectsIndex := sortAdjIndex (nodeByIdOf nodes) built.1,
    triggersIndex := sortAdjIndex (nodeByIdOf nodes) built.2,
    nodeById := nodeByIdOf nodes }

/-- A classified edge of the edge-bundling hierarchy: { source, target, declared }. -/
structure HEdge where
  source : String
  target : String
  declared : Bool
deriving DecidableEq, Repr

/-- The edge-visibility options of buildHierarchy. -/
structure EdgeOpts where
  visible : Bool
  declaredOnly : Bool
deriving DecidableEq, Repr

/-- The edge-array portion of buildHierarchy (edge-bundling transform
module): edges whose endpoints are both ids of non-hidden nodes, carrying
the declared flag, dropped when declaredOnly is set and the flag is false.
(The containment-tree portion of buildHierarchy is presentational and not
needed by any claim, so it is not modelled.) -/
def buildHierarchyEdges (nodes : List SnapNode) (edges : List SnapEdge)
    (hiddenTypes : List String) (edgeOpts : EdgeOpts) : List HEdge :=
  let causedBySet := causedBySetOf nodes
  let validIds := (nodes.filter (fun n => ¬ hiddenTypes.contains n.typeName)).map
    (fun n => n.id)
  edges.foldl (fun acc e =>
    if validIds.contains e.source ∧ validIds.contains e.target then
      let declared := declaredFlag causedBySet e
      if edgeOpts.declaredOnly ∧ declared = false then acc
      else acc ++ [⟨e.source, e.target, declared⟩]
    else acc) []

/-- An edge element of transformToElements (src/data/transform.js). -/
structure ElemEdge where
  id : String
  source : String
  target : String
deriving DecidableEq, Repr

/-- The edge-element portion of transformToElements: an edge element is
emitted only when both endpoints are ids of snapshot nodes. (The node and
compound-node elements carry no edge information and are not needed by any
claim.) -/
def transformEdgeElements (nodes : List SnapNode) (edges : List SnapEdge) : List ElemEdge :=
  let validNodeIds := nodes.map (fun n => n.id)
  edges.foldl (fun acc e =>
    if validNodeIds.contains e.source ∧ validNodeIds.contains e.target then
      acc ++ [⟨"edge:" ++ e.source ++ "->" ++ e.target, e.source, e.target⟩]
    else acc) []

/-! ## Claim C1: the declared flag -/

/-- The specification-level reading of the declared flag: the target entity
names the source in its incoming-declaration list. -/
def declaredSpec (nodes : List SnapNode) (src tgt : String) : Prop :=
  ∃ n ∈ nodes, n.id = tgt ∧ src ∈ n.causedBy

theorem declaredFlag_iff (nodes : List SnapNode)
    (hids : (nodes.map (fun n => n.id)).Nodup) (e : SnapEdge) :
    declaredFlag (causedBySetOf nodes) e = true ↔ declaredSpec nodes e.source e.target := by
  unfold declaredFlag causedBySetOf declaredSpec
  by_cases hex : ∃ n ∈ nodes, n.id = e.target
  · obtain ⟨x, hx, hk, hv⟩ := getEntry_foldl_setEntry_of_mem
      (fun n : SnapNode => n.id) (fun n : SnapNode => n.causedBy) nodes [] hex
    rw [hv]
    simp only [List.elem_iff]
    constructor
    · intro hmem
      exact ⟨x, hx, hk, hmem⟩
    · rintro ⟨n, hn, hid, hmem⟩
      have hxeq : x = n := eq_of_nodup_map_key hids hx hn (by rw [hk, hid])
      subst hxeq
      exact hmem
  · rw [getEntry_foldl_setEntry_of_not_mem (fun n : SnapNode => n.id)
      (fun n : SnapNode => n.causedBy) nodes [] e.target
      (fun x hx hk => hex ⟨x, hx, hk⟩)]
    simp only [getEntry]
    constructor
    · intro h
      simp at h
    · rintro ⟨n, hn, hid, hmem⟩
      exact absurd ⟨n, hn, hid⟩ hex

theorem getEntry_sortAdjIndex (nodeById : List (String × SnapNode))
    (idx : List (String × List AdjEntry)) (k : String) :
    getEntry (sortAdjIndex nodeById idx) k =
      (getEntry idx k).map (sortDescBy (fun a => ccOf nodeById a.id)) := by
  induction idx with
  | nil => rfl
  | cons p t ih =>
    by_cases hp : p.1 = k
    · simp [sortAdjIndex, getEntry, hp]
    · simpa [sortAdjIndex, getEntry, hp] using ih

/-- The declared flag recorded in both adjacency maps is the computed
declaredFlag of the corresponding edge, an invariant of the building fold. -/
theorem adjStep_fold_declared (causedBySet : List (String × List String))
    (edges : List SnapEdge)
    (st : List (String × List AdjEntry) × List (String × List AdjEntry))
    (h1 : ∀ k lst, getEntry st.1 k = some lst →
      ∀ a ∈ lst, a.declared = declaredFlag causedBySet ⟨k, a.id⟩)
    (h2 : ∀ k lst, getEntry st.2 k = some lst →
      ∀ a ∈ lst, a.declared = declaredFlag causedBySet ⟨a.id, k⟩) :
    (∀ k lst, getEntry (edges.foldl (adjStep causedBySet) st).1 k = some lst →
      ∀ a ∈ lst, a.declared = declaredFlag causedBySet ⟨k, a.id⟩) ∧
    (∀ k lst, getEntry (edges.foldl (adjStep causedBySet) st).2 k = some lst →
      ∀ a ∈ lst, a.declared = declaredFlag causedBySet ⟨a.id, k⟩) := by
  induction edges generalizing st with
  | nil => exact ⟨h1, h2⟩
  | cons e rest ih =>
    rw [List.foldl_cons]
    refine ih (adjStep causedBySet st e) ?_ ?_
    · intro k lst hget a ha
      by_cases hk : k = e.source
      · subst hk
        rw [show (adjStep causedBySet st e).1 =
            pushEntry st.1 e.source ⟨e.target, declaredFlag causedBySet e⟩ from rfl,
          getEntry_pushEntry_self] at hget
        obtain rfl := Option.some.inj hget
        rcases List.mem_append.mp ha with hold | hnew
        · cases hv : getEntry st.1 e.source with
          | none => rw [hv] at hold; simp at hold
          | some lst0 =>
            rw [hv] at hold
            exact h1 e.source lst0 hv a hold
        · have hae : a = ⟨e.target, declaredFlag causedBySet e⟩ := by simpa using hnew
          subst hae
          rfl
      · rw [show (adjStep causedBySet st e).1 =
            pushEntry st.1 e.source ⟨e.target, declaredFlag causedBySet e⟩ from rfl,
          getEntry_pushEntry_ne _ _ hk] at hget
        exact h1 k lst hget a ha
    · intro k lst hget a ha
      by_cases hk : k = e.target
      · subst hk
        rw [show (adjStep causedBySet st e).2 =
            pushEntry st.2 e.target ⟨e.source, declaredFlag causedBySet e⟩ from rfl,
          getEntry_pushEntry_self] at hget
        obtain rfl := Option.some.inj hget
        rcases List.mem_append.mp ha with hold | hnew
        · cases hv : getEntry st.2 e.target with
          | none => rw [hv] at hold; simp at hold
          | some lst0 =>
            rw [hv] at hold
            exact h2 e.target lst0 hv a hold
        · have hae : a = ⟨e.source, declaredFlag causedBySet e⟩ := by simpa using hnew
          subst hae
          rfl
      · rw [show (adjStep causedBySet st e).2 =
            pushEntry st.2 e.target ⟨e.source, declaredFlag causedBySet e⟩ from rfl,
          getEntry_pushEntry_ne _ _ hk] at hget
        exact h2 k lst hget a ha

/-- Every edge record kept by the buildHierarchy edge loop carries the
computed declaredFlag of its endpoints. -/
theorem buildHierarchyEdges_declared (nodes : List SnapNode) (edges : List SnapEdge)
    (hiddenTypes : List String) (edgeOpts : EdgeOpts) :
    ∀ he ∈ buildHierarchyEdges nodes edges hiddenTypes edgeOpts,
      he.declared = declaredFlag (causedBySetOf nodes) ⟨he.source, he.target⟩ := by
  unfold buildHierarchyEdges
  suffices h : ∀ (es : List SnapEdge) (acc : List HEdge),
      (∀ he ∈ acc, he.declared = declaredFlag (causedBySetOf nodes) ⟨he.source, he.target⟩) →
      ∀ he ∈ es.foldl (fun acc e =>
        if ((nodes.filter (fun n => ¬ hiddenTypes.contains n.typeName)).map
            (fun n => n.id)).contains e.source ∧
          ((nodes.filter (fun n => ¬ hiddenTypes.contains n.typeName)).map
            (fun n => n.id)).contains e.target then
          if edgeOpts.declaredOnly ∧ declaredFlag (causedBySetOf nodes) e = false then acc
          else acc ++ [⟨e.source, e.target, declaredFlag (causedBySetOf nodes) e⟩]
        else acc) acc,
        he.declared = declaredFlag (causedBySetOf nodes) ⟨he.source, he.target⟩ by
    intro he hhe
    exact h edges [] (by simp) he hhe
  intro es
  induction es with
  | nil => intro acc hacc he hhe; exact hacc he hhe
  | cons e rest ih =>
    intro acc hacc he hhe
    rw [List.foldl_cons] at hhe
    refine ih _ ?_ he hhe
    split
    · split
      · exact hacc
      · intro x hx
        rcases List.mem_append.mp hx with hold | hnew
        · exact hacc x hold
        · have hxe : x = ⟨e.source, e.target, declaredFlag (causedBySetOf nodes) e⟩ := by
            simpa using hnew
          subst hxe
          rfl
    · exact hacc

/-- C1: for every materialized causal edge, in both adjacency indices and
in the hierarchy edge list, the declared flag is true exactly when the
target entity's causedBy list contains the source id (entity ids assumed
pairwise distinct, as in the dataset). An effects entry a under key k is
the edge (k, a.id); a triggers entry a under key k is the edge (a.id, k). -/
theorem claim_C1_declared_flag (nodes : List SnapNode) (edges : List SnapEdge)
    (hiddenTypes : List String) (edgeOpts : EdgeOpts)
    (hids : (nodes.map (fun n => n.id)).Nodup) :
    (∀ k lst, getEntry (buildAdjacencyIndex nodes edges).effectsIndex k = some lst →
      ∀ a ∈ lst, (a.declared = true ↔ declaredSpec nodes k a.id)) ∧
    (∀ k lst, getEntry (buildAdjacencyIndex nodes edges).triggersIndex k = some lst →
      ∀ a ∈ lst, (a.declared = true ↔ declaredSpec nodes a.id k)) ∧
    (∀ he ∈ buildHierarchyEdges nodes edges hiddenTypes edgeOpts,
      (he.declared = true ↔ declaredSpec nodes he.source he.target)) := by
  have hbase := adjStep_fold_declared (causedBySetOf nodes) edges ([], [])
    (by intro k lst h; simp [getEntry] at h) (by intro k lst h; simp [getEntry] at h)
  refine ⟨?_, ?_, ?_⟩
  · intro k lst hget a ha
    rw [show (buildAdjacencyIndex nodes edges).effectsIndex =
        sortAdjIndex (nodeByIdOf nodes) (edges.foldl (adjStep (causedBySetOf nodes)) ([], [])).1
        from rfl, getEntry_sortAdjIndex] at hget
    cases hv : getEntry (edges.foldl (adjStep (causedBySetOf nodes)) ([], [])).1 k with
    | none => rw [hv] at hget; simp at hget
    | some lst0 =>
      rw [hv] at hget
      obtain rfl := Option.some.inj hget
      have ha0 : a ∈ lst0 := (mem_sortDescBy _ _ _).mp ha
      rw [hbase.1 k lst0 hv a ha0]
      exact declaredFlag_iff nodes hids ⟨k, a.id⟩
  · intro k lst hget a ha
    rw [show (buildAdjacencyIndex nodes edges).triggersIndex =
        sortAdjIndex (nodeByIdOf nodes) (edges.foldl (adjStep (causedBySetOf nodes)) ([], [])).2
        from rfl, getEntry_sortAdjIndex] at hget
    cases hv : getEntry (edges.foldl (adjStep (causedBySetOf nodes)) ([], [])).2 k with
    | none => rw [hv] at hget; simp at hget
    | some lst0 =>
      rw [hv] at hget
      obtain rfl := Option.some.inj hget
      have ha0 : a ∈ lst0 := (mem_sortDescBy _ _ _).mp ha
      rw [hbase.2 k lst0 hv a ha0]
      exact declaredFlag_iff nodes hids ⟨a.id, k⟩
  · intro he hhe
    rw [buildHierarchyEdges_declared nodes edges hiddenTypes edgeOpts he hhe]
    exact declaredFlag_iff nodes hids ⟨he.source, he.target⟩

/-- Witness for C1 at a concrete two-entity snapshot with one declared edge. -/
theorem claim_C1_declared_flag_witness :
    ((([⟨"A", "A", "T", "C", ["B"], []⟩, ⟨"B", "B", "T", "C", [], ["A"]⟩] :
        List SnapNode).map (fun n => n.id)).Nodup) ∧
    ((∀ k lst, getEntry (buildAdjacencyIndex
        [⟨"A", "A", "T", "C", ["B"], []⟩, ⟨"B", "B", "T", "C", [], ["A"]⟩]
        [⟨"A", "B"⟩]).effectsIndex k = some lst →
      ∀ a ∈ lst, (a.declared = true ↔ declaredSpec
        [⟨"A", "A", "T", "C", ["B"], []⟩, ⟨"B", "B", "T", "C", [], ["A"]⟩] k a.id)) ∧
    (∀ k lst, getEntry (buildAdjacencyIndex
        [⟨"A", "A", "T", "C", ["B"], []⟩, ⟨"B", "B", "T", "C", [], ["A"]⟩]
        [⟨"A", "B"⟩]).triggersIndex k = some lst →
      ∀ a ∈ lst, (a.declared = true ↔ declaredSpec
        [⟨"A", "A", "T", "C", ["B"], []⟩, ⟨"B", "B", "T", "C", [], ["A"]⟩] a.id k)) ∧
    (∀ he ∈ buildHierarchyEdges
        [⟨"A", "A", "T", "C", ["B"], []⟩, ⟨"B", "B", "T", "C", [], ["A"]⟩]
        [⟨"A", "B"⟩] [] ⟨true, false⟩,
      (he.declared = true ↔ declaredSpec
        [⟨"A", "A", "T", "C", ["B"], []⟩, ⟨"B", "B", "T", "C", [], ["A"]⟩]
        he.source he.target))) :=
  ⟨by decide, claim_C1_declared_flag _ _ [] ⟨true, false⟩ (by decide)⟩

/-! ## Claim C6: dangling references -/

theorem mem_foldl_of_step {α β : Type} (step : List β → α → List β) (P : α → β → Prop)
    (hstep : ∀ acc a x, x ∈ step acc a → x ∈ acc ∨ P a x) :
    ∀ (es : List α) (acc : List β) (x : β), x ∈ es.foldl step acc → x ∈ acc ∨ ∃ a ∈ es, P a x := by
  intro es
  induction es with
  | nil => intro acc x hx; exact Or.inl hx
  | cons e rest ih =>
    intro acc x hx
    rw [List.foldl_cons] at hx
    rcases ih (step acc e) x hx with hin | ⟨a, ha, hp⟩
    · rcases hstep acc e x hin with hin' | hp
      · exact Or.inl hin'
      · exact Or.inr ⟨e, List.mem_cons_self e rest, hp⟩
    · exact Or.inr ⟨a, List.mem_cons_of_mem e ha, hp⟩

/-- C6 counterexample: for the one-entity snapshot A with the dangling
declared cause X, buildAdjacencyIndex materializes the dangling edge in
both adjacency indices — the effects list of A holds the entry X and a
reverse list even exists under the nonexistent key X — refuting the claim
that a dangling reference never produces an edge in the forward or reverse
adjacency index. -/
theorem claim_C6_counterexample :
    getEntry (buildAdjacencyIndex [⟨"A", "A", "T", "C", ["X"], []⟩]
      [⟨"A", "X"⟩]).effectsIndex "A" = some [⟨"X", false⟩] ∧
    getEntry (buildAdjacencyIndex [⟨"A", "A", "T", "C", ["X"], []⟩]
      [⟨"A", "X"⟩]).triggersIndex "X" = some [⟨"A", false⟩] ∧
    (∀ n ∈ ([⟨"A", "A", "T", "C", ["X"], []⟩] : List SnapNode), n.id ≠ "X") := by
  refine ⟨by decide, by decide, by decide⟩

/-- C6 amended: a dangling reference is silently dropped from the element
list of transformToElements and from the hierarchy edge list of
buildHierarchy — every edge kept there has both endpoints in the entity
set — but the forward / reverse adjacency indices of buildAdjacencyIndex
do record entries for unresolvable endpoints (with declared = false); such
entries are only dropped later, when cascade-tree expansion fails to look
the id up. No error is raised anywhere. -/
theorem claim_C6_dangling_dropped (nodes : List SnapNode) (edges : List SnapEdge)
    (hiddenTypes : List String) (edgeOpts : EdgeOpts) :
    (∀ ee ∈ transformEdgeElements nodes edges,
      (∃ n ∈ nodes, n.id = ee.source) ∧ ∃ n ∈ nodes, n.id = ee.target) ∧
    (∀ he ∈ buildHierarchyEdges nodes edges hiddenTypes edgeOpts,
      (∃ n ∈ nodes, n.id = he.source) ∧ ∃ n ∈ nodes, n.id = he.target) := by
  constructor
  · intro ee hee
    unfold transformEdgeElements at hee
    have h := mem_foldl_of_step _
      (fun _ x => (∃ n ∈ nodes, n.id = x.source) ∧ ∃ n ∈ nodes, n.id = x.target)
      ?_ edges [] ee hee
    · rcases h with hin | ⟨a, _, hp⟩
      · simp at hin
      · exact hp
    · intro acc a x hx
      split at hx
      next hc =>
        rcases List.mem_append.mp hx with hold | hnew
        · exact Or.inl hold
        · have hxa : x = ⟨"edge:" ++ a.source ++ "->" ++ a.target, a.source, a.target⟩ := by
            simpa using hnew
          subst hxa
          refine Or.inr ⟨?_, ?_⟩
          · obtain ⟨n, hn, hid⟩ := List.mem_map.mp (List.elem_iff.mp hc.1)
            exact ⟨n, hn, hid⟩
          · obtain ⟨n, hn, hid⟩ := List.mem_map.mp (List.elem_iff.mp hc.2)
            exact ⟨n, hn, hid⟩
      next => exact Or.inl hx
  · intro he hhe
    unfold buildHierarchyEdges at hhe
    have h := mem_foldl_of_step _
      (fun _ x => (∃ n ∈ nodes, n.id = x.source) ∧ ∃ n ∈ nodes, n.id = x.target)
      ?_ edges [] he hhe
    · rcases h with hin | ⟨a, _, hp⟩
      · simp at hin
      · exact hp
    · intro acc a x hx
      split at hx
      next hc =>
        dsimp only at hx
        split at hx
        next => exact Or.inl hx
        next =>
          rcases List.mem_append.mp hx with hold | hnew
          · exact Or.inl hold
          · have hxa : x = ⟨a.source, a.target, declaredFlag (causedBySetOf nodes) a⟩ := by
              simpa using hnew
            subst hxa
            refine Or.inr ⟨?_, ?_⟩
            · obtain ⟨n, hn, hid⟩ := List.mem_map.mp (List.elem_iff.mp hc.1)
              exact ⟨n, (List.mem_filter.mp hn).1, hid⟩
            · obtain ⟨n, hn, hid⟩ := List.mem_map.mp (List.elem_iff.mp hc.2)
              exact ⟨n, (List.mem_filter.mp hn).1, hid⟩
      next => exact Or.inl hx

/-! ## buildCascadeTree (src/views/cascade/cascade-data.js) -/

/-- A cascade tree node: { id, label, typeName, clusterName,
connectionCount, ghost, children, truncated, totalChildren, expanded }. -/
structure CTNode where
  id : String
  label : String
  typeName : String
  clusterName : String
  connectionCount : Nat
  ghost : Bool
  children : List CTNode
  truncated : Nat
  totalChildren : Nat
  expanded : Bool

/-- The tree node as first constructed, before any expansion:
label falls back to the root id, typeName to Unknown; children empty,
truncated and totalChildren 0, expanded false. -/
def baseCTNode (rootId : String) (node : SnapNode) (isGhost : Bool) : CTNode :=
  { id := rootId,
    label := if node.label = "" then rootId else node.label,
    typeName := if node.typeName = "" then "Unknown" else node.typeName,
    clusterName := node.clusterName,
    connectionCount := node.causes.length + node.causedBy.length,
    ghost := isGhost,
    children := [],
    truncated := 0,
    totalChildren := 0,
    expanded := false }

/-- buildCascadeTree: recursive depth-first expansion with a shared
mutable visited set, modelled by threading the visited list through the
children fold. The two depth equations mirror the single source body: an
unresolvable root returns null with visited untouched; a node already
visited returns a ghost leaf immediately; at depth 0 the node is returned
unexpanded (ghost check first, as in the source); otherwise the node is
added to visited and the first MAX_CHILDREN neighbors are expanded left to
right, a null child (unresolvable neighbor id) being skipped while its
visited updates (none) are kept. -/
def buildCascadeTree (idx : List (String × List AdjEntry)) (nb : List (String × SnapNode)) :
    Nat → String → List String → Option CTNode × List String
  | 0, rootId, visited =>
    match getEntry nb rootId with
    | none => (none, visited)
    | some node => (some (baseCTNode rootId node (visited.contains rootId)), visited)
  | d + 1, rootId, visited =>
    match getEntry nb rootId with
    | none => (none, visited)
    | some node =>
      if visited.contains rootId then (some (baseCTNode rootId node true), visited)
      else
        let neighbors := (getEntry idx rootId).getD []
        let res := (neighbors.take MAX_CHILDREN).foldl
          (fun (acc : List CTNode × List String) entry =>
            let r := buildCascadeTree idx nb d entry.id acc.2
            (acc.1 ++ r.1.toList, r.2))
          ([], visited ++ [rootId])
        (some { baseCTNode rootId node false with
                  children := res.1,
                  truncated := neighbors.length - MAX_CHILDREN,
                  totalChildren := neighbors.length,
                  expanded := true }, res.2)

/-- One step of the children fold of buildCascadeTree. -/
def cascadeStep (idx : List (String × List AdjEntry)) (nb : List (String × SnapNode))
    (d : Nat) (acc : List CTNode × List String) (entry : AdjEntry) :
    List CTNode × List String :=
  let r := buildCascadeTree idx nb d entry.id acc.2
  (acc.1 ++ r.1.toList, r.2)

theorem buildCascadeTree_lookup_none (idx : List (String × List AdjEntry))
    (nb : List (String × SnapNode)) (d : Nat) (rid : String) (v : List String)
    (h : getEntry nb rid = none) : buildCascadeTree idx nb d rid v = (none, v) := by
  cases d <;> simp [buildCascadeTree, h]

theorem buildCascadeTree_zero (idx : List (String × List AdjEntry))
    (nb : List (String × SnapNode)) (rid : String) (v : List String) (node : SnapNode)
    (h : getEntry nb rid = some node) :
    buildCascadeTree idx nb 0 rid v = (some (baseCTNode rid node (v.contains rid)), v) := by
  simp [buildCascadeTree, h]

theorem buildCascadeTree_ghost (idx : List (String × List AdjEntry))
    (nb : List (String × SnapNode)) (d : Nat) (rid : String) (v : List String)
    (node : SnapNode) (h : getEntry nb rid = some node) (hg : v.contains rid = true) :
    buildCascadeTree idx nb (d + 1) rid v = (some (baseCTNode rid node true), v) := by
  have hm : rid ∈ v := by simpa using hg
  simp [buildCascadeTree, h, hm]

theorem buildCascadeTree_expand (idx : List (String × List AdjEntry))
    (nb : List (String × SnapNode)) (d : Nat) (rid : String) (v : List String)
    (node : SnapNode) (h : getEntry nb rid = some node) (hg : v.contains rid = false) :
    buildCascadeTree idx nb (d + 1) rid v =
      (some { baseCTNode rid node false with
          children := ((((getEntry idx rid).getD []).take MAX_CHILDREN).foldl
            (cascadeStep idx nb d) ([], v ++ [rid])).1,
          truncated := ((getEntry idx rid).getD []).length - MAX_CHILDREN,
          totalChildren := ((getEntry idx rid).getD []).length,
          expanded := true },
       ((((getEntry idx rid).getD []).take MAX_CHILDREN).foldl
         (cascadeStep idx nb d) ([], v ++ [rid])).2) := by
  rw [buildCascadeTree, h]
  simp only [hg, Bool.false_eq_true, if_false]
  rfl

/-- NodeAt t anc n: n is a node occurrence in the subtree t, and anc is
the list of the ids of its proper ancestors within t, outermost first. -/
inductive NodeAt : CTNode → List String → CTNode → Prop
  | here (t : CTNode) : NodeAt t [] t
  | child {t c : CTNode} {path : List String} {n : CTNode} :
      c ∈ t.children → NodeAt c path n → NodeAt t (t.id :: path) n

theorem nodeAt_inv {t : CTNode} {anc : List String} {n : CTNode} (h : NodeAt t anc n) :
    (anc = [] ∧ n = t) ∨
    ∃ c path, anc = t.id :: path ∧ c ∈ t.children ∧ NodeAt c path n := by
  cases h with
  | here => exact Or.inl ⟨rfl, rfl⟩
  | child hc hn => exact Or.inr ⟨_, _, rfl, hc, hn⟩

theorem buildCascadeTree_isSome (idx : List (String × List AdjEntry))
    (nb : List (String × SnapNode)) (d : Nat) (rid : String) (v : List String) :
    (buildCascadeTree idx nb d rid v).1.isSome = (getEntry nb rid).isSome := by
  cases hs : getEntry nb rid with
  | none => rw [buildCascadeTree_lookup_none idx nb d rid v hs]; rfl
  | some node =>
    cases d with
    | zero => rw [buildCascadeTree_zero idx nb rid v node hs]; rfl
    | succ d =>
      cases hg : v.contains rid with
      | true => rw [buildCascadeTree_ghost idx nb d rid v node hs hg]; rfl
      | false => rw [buildCascadeTree_expand idx nb d rid v node hs hg]; rfl

/-- The visited list only ever grows, by appending on the right. -/
theorem cascade_visited_extends (idx : List (String × List AdjEntry))
    (nb : List (String × SnapNode)) :
    ∀ (d : Nat) (rid : String) (v : List String),
      ∃ ex, (buildCascadeTree idx nb d rid v).2 = v ++ ex := by
  intro d
  induction d with
  | zero =>
    intro rid v
    cases hs : getEntry nb rid with
    | none => exact ⟨[], by rw [buildCascadeTree_lookup_none idx nb 0 rid v hs]; simp⟩
    | some node => exact ⟨[], by rw [buildCascadeTree_zero idx nb rid v node hs]; simp⟩
  | succ d ih =>
    have hfold : ∀ (entries : List AdjEntry) (accC : List CTNode) (accV : List String),
        ∃ ex, (entries.foldl (cascadeStep idx nb d) (accC, accV)).2 = accV ++ ex := by
      intro entries
      induction entries with
      | nil => intro accC accV; exact ⟨[], by simp⟩
      | cons e rest ihe =>
        intro accC accV
        obtain ⟨ex1, hex1⟩ := ih e.id accV
        obtain ⟨ex2, hex2⟩ := ihe
          (accC ++ (buildCascadeTree idx nb d e.id accV).1.toList)
          ((buildCascadeTree idx nb d e.id accV).2)
        refine ⟨ex1 ++ ex2, ?_⟩
        rw [List.foldl_cons]
        have hstep : cascadeStep idx nb d (accC, accV) e =
            (accC ++ (buildCascadeTree idx nb d e.id accV).1.toList,
             (buildCascadeTree idx nb d e.id accV).2) := rfl
        rw [hstep, hex2, hex1, List.append_assoc]
    intro rid v
    cases hs : getEntry nb rid with
    | none => exact ⟨[], by rw [buildCascadeTree_lookup_none idx nb (d + 1) rid v hs]; simp⟩
    | some node =>
      cases hg : v.contains rid with
      | true => exact ⟨[], by rw [buildCascadeTree_ghost idx nb d rid v node hs hg]; simp⟩
      | false =>
        obtain ⟨ex, hex⟩ := hfold (((getEntry idx rid).getD []).take MAX_CHILDREN) []
          (v ++ [rid])
        refine ⟨[rid] ++ ex, ?_⟩
        rw [buildCascadeTree_expand idx nb d rid v node hs hg]
        simpa [List.append_assoc] using hex

/-- Every tree in the accumulated children of the fold is either inherited
from the accumulator or was built by a successful recursive call whose
visited list extends the fold entry point. -/
theorem cascadeFold_mem (idx : List (String × List AdjEntry))
    (nb : List (String × SnapNode)) (d : Nat) :
    ∀ (entries : List AdjEntry) (accC : List CTNode) (accV : List String) (c : CTNode),
      c ∈ (entries.foldl (cascadeStep idx nb d) (accC, accV)).1 →
      c ∈ accC ∨ ∃ e ∈ entries, ∃ v1 v2, buildCascadeTree idx nb d e.id v1 = (some c, v2) ∧
        ∃ ex, v1 = accV ++ ex := by
  intro entries
  induction entries with
  | nil => intro accC accV c hc; exact Or.inl hc
  | cons e rest ih =>
    intro accC accV c hc
    rw [List.foldl_cons] at hc
    have hstep : cascadeStep idx nb d (accC, accV) e =
        (accC ++ (buildCascadeTree idx nb d e.id accV).1.toList,
         (buildCascadeTree idx nb d e.id accV).2) := rfl
    rcases ih _ _ c hc with hin | ⟨e', he', v1, v2, hb, ex, hex⟩
    · dsimp only at hin
      rcases List.mem_append.mp hin with h1 | h2
      · exact Or.inl h1
      · have h3 : (buildCascadeTree idx nb d e.id accV).1 = some c :=
          Option.mem_def.mp (Option.mem_toList.mp h2)
        refine Or.inr ⟨e, List.mem_cons_self e rest, accV,
          (buildCascadeTree idx nb d e.id accV).2, ?_, [], by simp⟩
        rw [Prod.ext_iff]
        exact ⟨h3, rfl⟩
    · dsimp only at hex
      obtain ⟨ex0, hex0⟩ := cascade_visited_extends idx nb d e.id accV
      refine Or.inr ⟨e', List.mem_cons_of_mem e he', v1, v2, hb, ex0 ++ ex, ?_⟩
      rw [hex, hex0, List.append_assoc]

/-- The children list length accumulated by the fold counts exactly the
entries whose id resolves in the entity lookup. -/
theorem cascadeFold_length (idx : List (String × List AdjEntry))
    (nb : List (String × SnapNode)) (d : Nat) :
    ∀ (entries : List AdjEntry) (accC : List CTNode) (accV : List String),
      ((entries.foldl (cascadeStep idx nb d) (accC, accV)).1).length =
        accC.length + (entries.filter (fun e => (getEntry nb e.id).isSome)).length := by
  intro entries
  induction entries with
  | nil => intro accC accV; simp
  | cons e rest ih =>
    intro accC accV
    rw [List.foldl_cons]
    have hstep : cascadeStep idx nb d (accC, accV) e =
        (accC ++ (buildCascadeTree idx nb d e.id accV).1.toList,
         (buildCascadeTree idx nb d e.id accV).2) := rfl
    rw [hstep, ih]
    have hlen : (buildCascadeTree idx nb d e.id accV).1.toList.length =
        ((getEntry nb e.id).isSome.toNat) := by
      have h := buildCascadeTree_isSome idx nb d e.id accV
      cases hb : (buildCascadeTree idx nb d e.id accV).1 with
      | none => rw [hb] at h; simp [← h]
      | some c => rw [hb] at h; simp [← h]
    cases hs : getEntry nb e.id with
    | none =>
      rw [hs] at hlen
      simp only [List.filter_cons, hs]
      simp at hlen
      simp [hlen]
    | some node =>
      rw [hs] at hlen
      simp only [List.filter_cons, hs]
      simp at hlen
      simp [hlen]
      omega

/-- The counting invariant of every expanded node of a cascade tree:
totalChildren is the full neighbor-list length, truncated the Nat
difference with MAX_CHILDREN, and children counts the shown (first
MAX_CHILDREN) neighbors whose id resolves in the entity lookup. -/
def ExpansionCounts (idx : List (String × List AdjEntry))
    (nb : List (String × SnapNode)) (t : CTNode) : Prop :=
  ∀ anc n, NodeAt t anc n → n.expanded = true →
    n.totalChildren = ((getEntry idx n.id).getD []).length ∧
    n.truncated = ((getEntry idx n.id).getD []).length - MAX_CHILDREN ∧
    n.children.length = ((((getEntry idx n.id).getD []).take MAX_CHILDREN).filter
      (fun e => (getEntry nb e.id).isSome)).length

theorem cascade_expansion_counts (idx : List (String × List AdjEntry))
    (nb : List (String × SnapNode)) :
    ∀ (depth : Nat) (rid : String) (v : List String) (tr : CTNode) (vOut : List String),
      buildCascadeTree idx nb depth rid v = (some tr, vOut) →
      ExpansionCounts idx nb tr := by
  intro depth
  induction depth with
  | zero =>
    intro rid v tr vOut h
    cases hs : getEntry nb rid with
    | none =>
      rw [buildCascadeTree_lookup_none idx nb 0 rid v hs] at h
      exact absurd (congrArg Prod.fst h) (by simp)
    | some node =>
      rw [buildCascadeTree_zero idx nb rid v node hs] at h
      have htr : tr = baseCTNode rid node (v.contains rid) :=
        (Option.some.inj (congrArg Prod.fst h)).symm
      subst htr
      intro anc n hat hexp
      rcases nodeAt_inv hat with ⟨_, rfl⟩ | ⟨c, path, _, hc, _⟩
      · exact absurd hexp (by simp [baseCTNode])
      · exact absurd hc (by simp [baseCTNode])
  | succ d ih =>
    intro rid v tr vOut h
    cases hs : getEntry nb rid with
    | none =>
      rw [buildCascadeTree_lookup_none idx nb (d + 1) rid v hs] at h
      exact absurd (congrArg Prod.fst h) (by simp)
    | some node =>
      cases hg : v.contains rid with
      | true =>
        rw [buildCascadeTree_ghost idx nb d rid v node hs hg] at h
        have htr : tr = baseCTNode rid node true :=
          (Option.some.inj (congrArg Prod.fst h)).symm
        subst htr
        intro anc n hat hexp
        rcases nodeAt_inv hat with ⟨_, rfl⟩ | ⟨c, path, _, hc, _⟩
        · exact absurd hexp (by simp [baseCTNode])
        · exact absurd hc (by simp [baseCTNode])
      | false =>
        rw [buildCascadeTree_expand idx nb d rid v node hs hg] at h
        have htr := (Option.some.inj (congrArg Prod.fst h)).symm
        subst htr
        intro anc n hat hexp
        rcases nodeAt_inv hat with ⟨_, rfl⟩ | ⟨c, path, _, hc, hat'⟩
        · refine ⟨rfl, rfl, ?_⟩
          simpa using cascadeFold_length idx nb d
            (((getEntry idx rid).getD []).take MAX_CHILDREN) [] (v ++ [rid])
        · rcases cascadeFold_mem idx nb d _ _ _ c hc with hin | ⟨e, _, v1, v2, hb, _⟩
          · exact absurd hin (by simp)
          · exact ih e.id v1 c v2 hb path n hat' hexp

/-! ## Claim C2: cycle breaking -/

/-- No non-ghost node has a non-ghost strict descendant with the same id. -/
def NoGhostRepeat (t : CTNode) : Prop :=
  ∀ anc n, NodeAt t anc n → n.ghost = false →
    ∀ path m, NodeAt n path m → path ≠ [] → m.id = n.id → m.ghost = true

theorem buildCascadeTree_none_visited (idx : List (String × List AdjEntry))
    (nb : List (String × SnapNode)) (d : Nat) (rid : String) (v : List String)
    (h : (buildCascadeTree idx nb d rid v).1 = none) :
    (buildCascadeTree idx nb d rid v).2 = v := by
  cases hs : getEntry nb rid with
  | none => rw [buildCascadeTree_lookup_none idx nb d rid v hs]
  | some node =>
    exfalso
    cases d with
    | zero => rw [buildCascadeTree_zero idx nb rid v node hs] at h; simp at h
    | succ d =>
      cases hg : v.contains rid with
      | true => rw [buildCascadeTree_ghost idx nb d rid v node hs hg] at h; simp at h
      | false => rw [buildCascadeTree_expand idx nb d rid v node hs hg] at h; simp at h

/-- The master invariant of buildCascadeTree: every new visited entry is
the id of an expanded node of the produced tree; any node whose id was in
the entry visited set is a ghost; every ghost either had its id in the
entry visited set or repeats an expanded node of the tree; and no
non-ghost node has a non-ghost strict descendant with the same id. -/
theorem cascade_master (idx : List (String × List AdjEntry))
    (nb : List (String × SnapNode)) :
    ∀ (depth : Nat) (rid : String) (v : List String) (tr : CTNode) (vOut : List String),
      buildCascadeTree idx nb depth rid v = (some tr, vOut) →
      ((∀ x ∈ vOut, x ∈ v ∨ ∃ anc m, NodeAt tr anc m ∧ m.expanded = true ∧ m.id = x) ∧
       (∀ anc m, NodeAt tr anc m → m.id ∈ v → m.ghost = true) ∧
       (∀ anc g, NodeAt tr anc g → g.ghost = true →
          g.id ∈ v ∨ ∃ anc2 m, NodeAt tr anc2 m ∧ m.expanded = true ∧ m.id = g.id) ∧
       NoGhostRepeat tr) := by
  intro depth
  induction depth with
  | zero =>
    intro rid v tr vOut h
    cases hs : getEntry nb rid with
    | none =>
      rw [buildCascadeTree_lookup_none idx nb 0 rid v hs] at h
      exact absurd (congrArg Prod.fst h) (by simp)
    | some node =>
      rw [buildCascadeTree_zero idx nb rid v node hs] at h
      have htr : tr = baseCTNode rid node (v.contains rid) :=
        (Option.some.inj (congrArg Prod.fst h)).symm
      have hvout : vOut = v := (congrArg Prod.snd h).symm
      subst htr
      subst hvout
      refine ⟨fun x hx => Or.inl hx, ?_, ?_, ?_⟩
      · intro anc m hat hmem
        rcases nodeAt_inv hat with ⟨_, rfl⟩ | ⟨c, path, _, hc, _⟩
        · exact List.elem_iff.mpr hmem
        · exact absurd hc (by simp [baseCTNode])
      · intro anc g hat hg
        rcases nodeAt_inv hat with ⟨_, rfl⟩ | ⟨c, path, _, hc, _⟩
        · exact Or.inl (List.elem_iff.mp hg)
        · exact absurd hc (by simp [baseCTNode])
      · intro anc n hat hng path m hm hpath hid
        rcases nodeAt_inv hat with ⟨_, rfl⟩ | ⟨c, path', _, hc, _⟩
        · rcases nodeAt_inv hm with ⟨rfl, _⟩ | ⟨c, path', _, hc, _⟩
          · exact absurd rfl hpath
          · exact absurd hc (by simp [baseCTNode])
        · exact absurd hc (by simp [baseCTNode])
  | succ d ih =>
    have hfold : ∀ (entries : List AdjEntry) (accC : List CTNode) (accV v0 : List String),
        (∃ ex, accV = v0 ++ ex) →
        (∀ x ∈ accV, x ∈ v0 ∨
          ∃ c ∈ accC, ∃ anc m, NodeAt c anc m ∧ m.expanded = true ∧ m.id = x) →
        (∀ c ∈ accC, ∀ anc m, NodeAt c anc m → m.id ∈ v0 → m.ghost = true) →
        (∀ c ∈ accC, ∀ anc g, NodeAt c anc g → g.ghost = true → g.id ∈ v0 ∨
          ∃ c2 ∈ accC, ∃ anc2 m, NodeAt c2 anc2 m ∧ m.expanded = true ∧ m.id = g.id) →
        (∀ c ∈ accC, NoGhostRepeat c) →
        ((∀ x ∈ (entries.foldl (cascadeStep idx nb d) (accC, accV)).2, x ∈ v0 ∨
            ∃ c ∈ (entries.foldl (cascadeStep idx nb d) (accC, accV)).1,
              ∃ anc m, NodeAt c anc m ∧ m.expanded = true ∧ m.id = x) ∧
         (∀ c ∈ (entries.foldl (cascadeStep idx nb d) (accC, accV)).1,
            ∀ anc m, NodeAt c anc m → m.id ∈ v0 → m.ghost = true) ∧
         (∀ c ∈ (entries.foldl (cascadeStep idx nb d) (accC, accV)).1,
            ∀ anc g, NodeAt c anc g → g.ghost = true → g.id ∈ v0 ∨
              ∃ c2 ∈ (entries.foldl (cascadeStep idx nb d) (accC, accV)).1,
                ∃ anc2 m, NodeAt c2 anc2 m ∧ m.expanded = true ∧ m.id = g.id) ∧
         (∀ c ∈ (entries.foldl (cascadeStep idx nb d) (accC, accV)).1, NoGhostRepeat c)) := by
      intro entries
      induction entries with
      | nil =>
        intro accC accV v0 _ hx hgf hgo hnr
        exact ⟨hx, hgf, hgo, hnr⟩
      | cons e rest ihe =>
        intro accC accV v0 hv hx hgf hgo hnr
        obtain ⟨ex, hex⟩ := hv
        have hsubv0 : ∀ y, y ∈ v0 → y ∈ accV := by
          intro y hy
          rw [hex]
          exact List.mem_append.mpr (Or.inl hy)
        rw [List.foldl_cons]
        have hstep : cascadeStep idx nb d (accC, accV) e =
            (accC ++ (buildCascadeTree idx nb d e.id accV).1.toList,
             (buildCascadeTree idx nb d e.id accV).2) := rfl
        rw [hstep]
        obtain ⟨ex0, hex0⟩ := cascade_visited_extends idx nb d e.id accV
        cases hb : (buildCascadeTree idx nb d e.id accV).1 with
        | none =>
          have hv2 : (buildCascadeTree idx nb d e.id accV).2 = accV :=
            buildCascadeTree_none_visited idx nb d e.id accV hb
          simp only [hb, hv2, Option.toList_none, List.append_nil]
          exact ihe accC accV v0 ⟨ex, hex⟩ hx hgf hgo hnr
        | some c0 =>
          have hbuild : buildCascadeTree idx nb d e.id accV =
              (some c0, (buildCascadeTree idx nb d e.id accV).2) := by
            rw [Prod.ext_iff]
            exact ⟨hb, rfl⟩
          obtain ⟨t1, t2, t3, t4⟩ := ih e.id accV c0
            ((buildCascadeTree idx nb d e.id accV).2) hbuild
          simp only [hb, Option.toList_some]
          refine ihe (accC ++ [c0]) ((buildCascadeTree idx nb d e.id accV).2) v0
            ⟨ex ++ ex0, by rw [hex0, hex, List.append_assoc]⟩ ?_ ?_ ?_ ?_
          · intro x hxm
            rcases t1 x hxm with h0 | ⟨anc, m, hat, hexp, hidm⟩
            · rcases hx x h0 with h1 | ⟨c, hc, rest'⟩
              · exact Or.inl h1
              · exact Or.inr ⟨c, List.mem_append.mpr (Or.inl hc), rest'⟩
            · exact Or.inr ⟨c0, List.mem_append.mpr (Or.inr (by simp)),
                anc, m, hat, hexp, hidm⟩
          · intro c hc anc m hat hmem
            rcases List.mem_append.mp hc with h1 | h2
            · exact hgf c h1 anc m hat hmem
            · have hcc : c = c0 := by simpa using h2
              subst hcc
              exact t2 anc m hat (hsubv0 _ hmem)
          · intro c hc anc g hat hg
            rcases List.mem_append.mp hc with h1 | h2
            · rcases hgo c h1 anc g hat hg with h0 | ⟨c2, hc2, rest'⟩
              · exact Or.inl h0
              · exact Or.inr ⟨c2, List.mem_append.mpr (Or.inl hc2), rest'⟩
            · have hcc : c = c0 := by simpa using h2
              subst hcc
              rcases t3 anc g hat hg with h0 | ⟨anc2, m, hat2, hexp, hidm⟩
              · rcases hx g.id h0 with h1 | ⟨c2, hc2, rest'⟩
                · exact Or.inl h1
                · exact Or.inr ⟨c2, List.mem_append.mpr (Or.inl hc2), rest'⟩
              · exact Or.inr ⟨c, List.mem_append.mpr (Or.inr (by simp)),
                  anc2, m, hat2, hexp, hidm⟩
          · intro c hc
            rcases List.mem_append.mp hc with h1 | h2
            · exact hnr c h1
            · have hcc : c = c0 := by simpa using h2
              subst hcc
              exact t4
    intro rid v tr vOut h
    cases hs : getEntry nb rid with
    | none =>
      rw [buildCascadeTree_lookup_none idx nb (d + 1) rid v hs] at h
      exact absurd (congrArg Prod.fst h) (by simp)
    | some node =>
      cases hg : v.contains rid with
      | true =>
        rw [buildCascadeTree_ghost idx nb d rid v node hs hg] at h
        have htr : tr = baseCTNode rid node true :=
          (Option.some.inj (congrArg Prod.fst h)).symm
        have hvout : vOut = v := (congrArg Prod.snd h).symm
        subst htr
        subst hvout
        refine ⟨fun x hx => Or.inl hx, ?_, ?_, ?_⟩
        · intro anc m hat _
          rcases nodeAt_inv hat with ⟨_, rfl⟩ | ⟨c, path, _, hc, _⟩
          · rfl
          · exact absurd hc (by simp [baseCTNode])
        · intro anc g hat _
          rcases nodeAt_inv hat with ⟨_, rfl⟩ | ⟨c, path, _, hc, _⟩
          · exact Or.inl (List.elem_iff.mp hg)
          · exact absurd hc (by simp [baseCTNode])
        · intro anc n hat hng path m hm hpath hid
          rcases nodeAt_inv hat with ⟨_, rfl⟩ | ⟨c, path', _, hc, _⟩
          · exact absurd hng (by simp [baseCTNode])
          · exact absurd hc (by simp [baseCTNode])
      | false =>
        rw [buildCascadeTree_expand idx nb d rid v node hs hg] at h
        injection h with h1 h2
        injection h1 with h1
        subst h2
        subst h1
        have hridv : rid ∉ v := by
          intro hmem
          have hco : v.contains rid = true := List.elem_iff.mpr hmem
          rw [hco] at hg
          simp at hg
        obtain ⟨g1, g2, g3, g4⟩ := hfold (((getEntry idx rid).getD []).take MAX_CHILDREN)
          [] (v ++ [rid]) (v ++ [rid]) ⟨[], by simp⟩
          (fun x hx => Or.inl hx) (by simp) (by simp) (by simp)
        refine ⟨?_, ?_, ?_, ?_⟩
        · intro x hx
          rcases g1 x hx with h0 | ⟨c, hc, anc, m, hat, hexp, hidm⟩
          · rcases List.mem_append.mp h0 with h1 | h2
            · exact Or.inl h1
            · have hxr : x = rid := by simpa using h2
              subst hxr
              exact Or.inr ⟨[], _, NodeAt.here _, rfl, rfl⟩
          · exact Or.inr ⟨_ :: anc, m, NodeAt.child hc hat, hexp, hidm⟩
        · intro anc m hat hmem
          rcases nodeAt_inv hat with ⟨_, rfl⟩ | ⟨c, path, _, hc, hat'⟩
          · exact absurd hmem hridv
          · exact g2 c hc path m hat' (List.mem_append.mpr (Or.inl hmem))
        · intro anc g hat hgg
          rcases nodeAt_inv hat with ⟨_, rfl⟩ | ⟨c, path, _, hc, hat'⟩
          · exact absurd hgg (by simp [baseCTNode])
          · rcases g3 c hc path g hat' hgg with h0 | ⟨c2, hc2, anc2, m, hat2, hexp, hidm⟩
            · rcases List.mem_append.mp h0 with h1 | h2
              · exact Or.inl h1
              · have hxr : g.id = rid := by simpa using h2
                exact Or.inr ⟨[], _, NodeAt.here _, rfl, hxr.symm⟩
            · exact Or.inr ⟨_ :: anc2, m, NodeAt.child hc2 hat2, hexp, hidm⟩
        · intro anc n hat hng path m hm hpath hid
          rcases nodeAt_inv hat with ⟨_, rfl⟩ | ⟨c, path', _, hc, hat'⟩
          · rcases nodeAt_inv hm with ⟨rfl, _⟩ | ⟨c, path', _, hc, hm'⟩
            · exact absurd rfl hpath
            · refine g2 c hc path' m hm' ?_
              rw [hid]
              exact List.mem_append.mpr (Or.inr (by simp [baseCTNode]))
          · exact g4 c hc path' n hat' hng path m hm hpath hid

/-- C2 amended: in the tree buildCascadeTree returns for a fresh (empty)
visited set, no non-ghost node has a non-ghost strict descendant with the
same id; and every ghost node's id is the id of an expanded node somewhere
in the same tree — but, because the visited set is shared across sibling
subtrees, that expanded occurrence may lie on a different branch, not
necessarily on the ghost's own root-to-node path (see the counterexample). -/
theorem claim_C2_cascade_cycle_breaking (idx : List (String × List AdjEntry))
    (nb : List (String × SnapNode)) (depth : Nat) (rid : String)
    (tr : CTNode) (vOut : List String)
    (h : buildCascadeTree idx nb depth rid [] = (some tr, vOut)) :
    (∀ anc n, NodeAt tr anc n → n.ghost = false →
      ∀ path m, NodeAt n path m → path ≠ [] → m.id = n.id → m.ghost = true) ∧
    (∀ anc g, NodeAt tr anc g → g.ghost = true →
      ∃ anc2 m, NodeAt tr anc2 m ∧ m.expanded = true ∧ m.id = g.id) := by
  obtain ⟨_, _, h3, h4⟩ := cascade_master idx nb depth rid [] tr vOut h
  refine ⟨h4, ?_⟩
  intro anc g hat hg
  rcases h3 anc g hat hg with h0 | h1
  · simp at h0
  · exact h1

/-- C2 counterexample: R causes A and B, and both A and B cause X. With
depth 3 the expansion visits X under A first; when B later reaches X, the
shared visited set marks it a ghost although X does not occur on that
ghost's own root-to-node path [R, B] — it was visited in the sibling
subtree under A. This refutes the claim that a node is a ghost exactly
when its id was already visited on the current root-to-node path. -/
theorem claim_C2_counterexample :
    ∃ tr vOut anc g,
      buildCascadeTree
        (buildAdjacencyIndex
          [⟨"R", "", "T", "C", ["A", "B"], []⟩, ⟨"A", "", "T", "C", ["X"], ["R"]⟩,
           ⟨"B", "", "T", "C", ["X"], ["R"]⟩, ⟨"X", "", "T", "C", [], ["A", "B"]⟩]
          [⟨"R", "A"⟩, ⟨"R", "B"⟩, ⟨"A", "X"⟩, ⟨"B", "X"⟩]).effectsIndex
        (buildAdjacencyIndex
          [⟨"R", "", "T", "C", ["A", "B"], []⟩, ⟨"A", "", "T", "C", ["X"], ["R"]⟩,
           ⟨"B", "", "T", "C", ["X"], ["R"]⟩, ⟨"X", "", "T", "C", [], ["A", "B"]⟩]
          [⟨"R", "A"⟩, ⟨"R", "B"⟩, ⟨"A", "X"⟩, ⟨"B", "X"⟩]).nodeById
        3 "R" [] = (some tr, vOut) ∧
      NodeAt tr anc g ∧ g.ghost = true ∧ ¬ g.id ∈ anc := by
  refine ⟨⟨"R", "R", "T", "C", 2, false,
      [⟨"A", "A", "T", "C", 2, false, [⟨"X", "X", "T", "C", 2, false, [], 0, 0, true⟩],
          0, 1, true⟩,
       ⟨"B", "B", "T", "C", 2, false, [⟨"X", "X", "T", "C", 2, true, [], 0, 0, false⟩],
          0, 1, true⟩],
      0, 2, true⟩,
    ["R", "A", "X", "B"], ["R", "B"],
    ⟨"X", "X", "T", "C", 2, true, [], 0, 0, false⟩, rfl, ?_, rfl, by decide⟩
  exact NodeAt.child (List.mem_cons_of_mem _ (List.mem_cons_self _ _))
    (NodeAt.child (List.mem_cons_self _ _) (NodeAt.here _))

/-- Witness for the amended C2 at the same concrete four-entity snapshot. -/
theorem claim_C2_cascade_cycle_breaking_witness :
    (buildCascadeTree
        (buildAdjacencyIndex
          [⟨"R", "", "T", "C", ["A", "B"], []⟩, ⟨"A", "", "T", "C", ["X"], ["R"]⟩,
           ⟨"B", "", "T", "C", ["X"], ["R"]⟩, ⟨"X", "", "T", "C", [], ["A", "B"]⟩]
          [⟨"R", "A"⟩, ⟨"R", "B"⟩, ⟨"A", "X"⟩, ⟨"B", "X"⟩]).effectsIndex
        (buildAdjacencyIndex
          [⟨"R", "", "T", "C", ["A", "B"], []⟩, ⟨"A", "", "T", "C", ["X"], ["R"]⟩,
           ⟨"B", "", "T", "C", ["X"], ["R"]⟩, ⟨"X", "", "T", "C", [], ["A", "B"]⟩]
          [⟨"R", "A"⟩, ⟨"R", "B"⟩, ⟨"A", "X"⟩, ⟨"B", "X"⟩]).nodeById
        3 "R" [] =
      (some (⟨"R", "R", "T", "C", 2, false,
        [⟨"A", "A", "T", "C", 2, false, [⟨"X", "X", "T", "C", 2, false, [], 0, 0, true⟩],
            0, 1, true⟩,
         ⟨"B", "B", "T", "C", 2, false, [⟨"X", "X", "T", "C", 2, true, [], 0, 0, false⟩],
            0, 1, true⟩],
        0, 2, true⟩ : CTNode), ["R", "A", "X", "B"])) ∧
    ((∀ anc n, NodeAt (⟨"R", "R", "T", "C", 2, false,
        [⟨"A", "A", "T", "C", 2, false, [⟨"X", "X", "T", "C", 2, false, [], 0, 0, true⟩],
            0, 1, true⟩,
         ⟨"B", "B", "T", "C", 2, false, [⟨"X", "X", "T", "C", 2, true, [], 0, 0, false⟩],
            0, 1, true⟩],
        0, 2, true⟩ : CTNode) anc n → n.ghost = false →
      ∀ path m, NodeAt n path m → path ≠ [] → m.id = n.id → m.ghost = true) ∧
    (∀ anc g, NodeAt (⟨"R", "R", "T", "C", 2, false,
        [⟨"A", "A", "T", "C", 2, false, [⟨"X", "X", "T", "C", 2, false, [], 0, 0, true⟩],
            0, 1, true⟩,
         ⟨"B", "B", "T", "C", 2, false, [⟨"X", "X", "T", "C", 2, true, [], 0, 0, false⟩],
            0, 1, true⟩],
        0, 2, true⟩ : CTNode) anc g → g.ghost = true →
      ∃ anc2 m, NodeAt (⟨"R", "R", "T", "C", 2, false,
        [⟨"A", "A", "T", "C", 2, false, [⟨"X", "X", "T", "C", 2, false, [], 0, 0, true⟩],
            0, 1, true⟩,
         ⟨"B", "B", "T", "C", 2, false, [⟨"X", "X", "T", "C", 2, true, [], 0, 0, false⟩],
            0, 1, true⟩],
        0, 2, true⟩ : CTNode) anc2 m ∧ m.expanded = true ∧ m.id = g.id)) :=
  ⟨rfl,
    claim_C2_cascade_cycle_breaking
      (buildAdjacencyIndex
        [⟨"R", "", "T", "C", ["A", "B"], []⟩, ⟨"A", "", "T", "C", ["X"], ["R"]⟩,
         ⟨"B", "", "T", "C", ["X"], ["R"]⟩, ⟨"X", "", "T", "C", [], ["A", "B"]⟩]
        [⟨"R", "A"⟩, ⟨"R", "B"⟩, ⟨"A", "X"⟩, ⟨"B", "X"⟩]).effectsIndex
      (buildAdjacencyIndex
        [⟨"R", "", "T", "C", ["A", "B"], []⟩, ⟨"A", "", "T", "C", ["X"], ["R"]⟩,
         ⟨"B", "", "T", "C", ["X"], ["R"]⟩, ⟨"X", "", "T", "C", [], ["A", "B"]⟩]
        [⟨"R", "A"⟩, ⟨"R", "B"⟩, ⟨"A", "X"⟩, ⟨"B", "X"⟩]).nodeById
      3 "R"
      ⟨"R", "R", "T", "C", 2, false,
        [⟨"A", "A", "T", "C", 2, false, [⟨"X", "X", "T", "C", 2, false, [], 0, 0, true⟩],
            0, 1, true⟩,
         ⟨"B", "B", "T", "C", 2, false, [⟨"X", "X", "T", "C", 2, true, [], 0, 0, false⟩],
            0, 1, true⟩],
        0, 2, true⟩
      ["R", "A", "X", "B"] rfl⟩

/-! ## Claim C3: fan-out truncation -/

/-- C3 amended: for every expanded cascade-tree node, with N its true
neighbor count (totalChildren) and K = MAX_CHILDREN the cap: truncated
always equals N - K (0 when N is at most K); and provided every neighbor
id recorded in the adjacency index resolves in the entity lookup,
children.length = K when K < N and children.length = N when N is at most
K. An unresolvable neighbor id among the first K is dropped from children
(yielding fewer than K children) while still counted in N and truncated,
as the counterexample shows. -/
theorem claim_C3_truncation (idx : List (String × List AdjEntry))
    (nb : List (String × SnapNode)) (depth : Nat) (rid : String) (v : List String)
    (tr : CTNode) (vOut : List String)
    (h : buildCascadeTree idx nb depth rid v = (some tr, vOut))
    (hres : ∀ p ∈ idx, ∀ e ∈ p.2, (getEntry nb e.id).isSome = true) :
    ∀ anc n, NodeAt tr anc n → n.expanded = true →
      n.truncated = n.totalChildren - MAX_CHILDREN ∧
      (MAX_CHILDREN < n.totalChildren → n.children.length = MAX_CHILDREN) ∧
      (n.totalChildren ≤ MAX_CHILDREN →
        n.children.length = n.totalChildren ∧ n.truncated = 0) := by
  intro anc n hat hexp
  obtain ⟨h1, h2, h3⟩ := cascade_expansion_counts idx nb depth rid v tr vOut h anc n hat hexp
  cases hl : getEntry idx n.id with
  | none =>
    rw [hl] at h1 h2 h3
    simp only [Option.getD_none, List.length_nil, List.take_nil, List.filter_nil] at h1 h2 h3
    refine ⟨by omega, fun hlt => by omega, fun hle => by omega⟩
  | some lst =>
    rw [hl] at h1 h2 h3
    simp only [Option.getD_some] at h1 h2 h3
    have hmem : (n.id, lst) ∈ idx := getEntry_eq_some_mem hl
    have hall : ∀ e ∈ lst.take MAX_CHILDREN, (getEntry nb e.id).isSome = true :=
      fun e he => hres (n.id, lst) hmem e (List.take_subset _ _ he)
    have hfilter : (lst.take MAX_CHILDREN).filter (fun e => (getEntry nb e.id).isSome) =
        lst.take MAX_CHILDREN := List.filter_eq_self.mpr hall
    rw [hfilter, List.length_take] at h3
    refine ⟨by omega, fun hlt => by omega, fun hle => by omega⟩

/-- C3 counterexample: a 16-neighbor root whose first neighbor id B1 does
not resolve in the entity set (all neighbors tie at connectionCount 0, so
the stable sort keeps B1 among the first MAX_CHILDREN): the expanded root
reports totalChildren 16 > MAX_CHILDREN and truncated 1, but only 14
children (B1 is dropped), refuting children.length = K. -/
theorem claim_C3_counterexample :
    ((buildCascadeTree
        (buildAdjacencyIndex
          [⟨"R", "", "T", "C",
              ["B1", "B2", "B3", "B4", "B5", "B6", "B7", "B8", "B9", "B10", "B11", "B12",
               "B13", "B14", "B15", "B16"], []⟩,
            ⟨"B2", "", "T", "C", [], []⟩, ⟨"B3", "", "T", "C", [], []⟩,
            ⟨"B4", "", "T", "C", [], []⟩, ⟨"B5", "", "T", "C", [], []⟩,
            ⟨"B6", "", "T", "C", [], []⟩, ⟨"B7", "", "T", "C", [], []⟩,
            ⟨"B8", "", "T", "C", [], []⟩, ⟨"B9", "", "T", "C", [], []⟩,
            ⟨"B10", "", "T", "C", [], []⟩, ⟨"B11", "", "T", "C", [], []⟩,
            ⟨"B12", "", "T", "C", [], []⟩, ⟨"B13", "", "T", "C", [], []⟩,
            ⟨"B14", "", "T", "C", [], []⟩, ⟨"B15", "", "T", "C", [], []⟩,
            ⟨"B16", "", "T", "C", [], []⟩]
          [⟨"R", "B1"⟩, ⟨"R", "B2"⟩, ⟨"R", "B3"⟩, ⟨"R", "B4"⟩, ⟨"R", "B5"⟩, ⟨"R", "B6"⟩,
           ⟨"R", "B7"⟩, ⟨"R", "B8"⟩, ⟨"R", "B9"⟩, ⟨"R", "B10"⟩, ⟨"R", "B11"⟩,
           ⟨"R", "B12"⟩, ⟨"R", "B13"⟩, ⟨"R", "B14"⟩, ⟨"R", "B15"⟩,
           ⟨"R", "B16"⟩]).effectsIndex
        (buildAdjacencyIndex
          [⟨"R", "", "T", "C",
              ["B1", "B2", "B3", "B4", "B5", "B6", "B7", "B8", "B9", "B10", "B11", "B12",
               "B13", "B14", "B15", "B16"], []⟩,
            ⟨"B2", "", "T", "C", [], []⟩, ⟨"B3", "", "T", "C", [], []⟩,
            ⟨"B4", "", "T", "C", [], []⟩, ⟨"B5", "", "T", "C", [], []⟩,
            ⟨"B6", "", "T", "C", [], []⟩, ⟨"B7", "", "T", "C", [], []⟩,
            ⟨"B8", "", "T", "C", [], []⟩, ⟨"B9", "", "T", "C", [], []⟩,
            ⟨"B10", "", "T", "C", [], []⟩, ⟨"B11", "", "T", "C", [], []⟩,
            ⟨"B12", "", "T", "C", [], []⟩, ⟨"B13", "", "T", "C", [], []⟩,
            ⟨"B14", "", "T", "C", [], []⟩, ⟨"B15", "", "T", "C", [], []⟩,
            ⟨"B16", "", "T", "C", [], []⟩]
          [⟨"R", "B1"⟩, ⟨"R", "B2"⟩, ⟨"R", "B3"⟩, ⟨"R", "B4"⟩, ⟨"R", "B5"⟩, ⟨"R", "B6"⟩,
           ⟨"R", "B7"⟩, ⟨"R", "B8"⟩, ⟨"R", "B9"⟩, ⟨"R", "B10"⟩, ⟨"R", "B11"⟩,
           ⟨"R", "B12"⟩, ⟨"R", "B13"⟩, ⟨"R", "B14"⟩, ⟨"R", "B15"⟩,
           ⟨"R", "B16"⟩]).nodeById
        1 "R" []).1.map
      (fun t => (t.expanded, t.totalChildren, t.children.length, t.truncated)))
      = some (true, 16, 14, 1) ∧
    MAX_CHILDREN < 16 ∧ (14 : Nat) ≠ MAX_CHILDREN :=
  ⟨rfl, by decide, by decide⟩

/-- Witness for the amended C3 at a concrete fully-resolvable snapshot. -/
theorem claim_C3_truncation_witness :
    (buildCascadeTree
        (buildAdjacencyIndex [⟨"R", "", "T", "C", ["A"], []⟩, ⟨"A", "", "T", "C", [], ["R"]⟩]
          [⟨"R", "A"⟩]).effectsIndex
        (buildAdjacencyIndex [⟨"R", "", "T", "C", ["A"], []⟩, ⟨"A", "", "T", "C", [], ["R"]⟩]
          [⟨"R", "A"⟩]).nodeById
        1 "R" [] =
      (some ⟨"R", "R", "T", "C", 1, false,
          [⟨"A", "A", "T", "C", 1, false, [], 0, 0, false⟩], 0, 1, true⟩, ["R"])) ∧
    (∀ p ∈ (buildAdjacencyIndex
        [⟨"R", "", "T", "C", ["A"], []⟩, ⟨"A", "", "T", "C", [], ["R"]⟩]
        [⟨"R", "A"⟩]).effectsIndex, ∀ e ∈ p.2,
      (getEntry (buildAdjacencyIndex
        [⟨"R", "", "T", "C", ["A"], []⟩, ⟨"A", "", "T", "C", [], ["R"]⟩]
        [⟨"R", "A"⟩]).nodeById e.id).isSome = true) ∧
    (∀ anc n, NodeAt (⟨"R", "R", "T", "C", 1, false,
          [⟨"A", "A", "T", "C", 1, false, [], 0, 0, false⟩], 0, 1, true⟩ : CTNode) anc n →
      n.expanded = true →
      n.truncated = n.totalChildren - MAX_CHILDREN ∧
      (MAX_CHILDREN < n.totalChildren → n.children.length = MAX_CHILDREN) ∧
      (n.totalChildren ≤ MAX_CHILDREN →
        n.children.length = n.totalChildren ∧ n.truncated = 0)) :=
  ⟨rfl, by decide,
    claim_C3_truncation
      (buildAdjacencyIndex [⟨"R", "", "T", "C", ["A"], []⟩, ⟨"A", "", "T", "C", [], ["R"]⟩]
        [⟨"R", "A"⟩]).effectsIndex
      (buildAdjacencyIndex [⟨"R", "", "T", "C", ["A"], []⟩, ⟨"A", "", "T", "C", [], ["R"]⟩]
        [⟨"R", "A"⟩]).nodeById
      1 "R" []
      ⟨"R", "R", "T", "C", 1, false,
        [⟨"A", "A", "T", "C", 1, false, [], 0, 0, false⟩], 0, 1, true⟩
      ["R"] rfl (by decide)⟩

/-! ## Hyper-route detection (src/graph/hyperspace-layout.js)

Angles and radii are modelled over the rationals; every IEEE double is a
rational and the pi constant and the trig primitives are abstract
parameters where needed, so nothing is lost for the claims at stake. -/

/-- An edge as the hyperspace layout sees it: { id, source, target }. -/
structure HEdgeData where
  id : String
  source : String
  target : String
deriving DecidableEq, Repr

/-- A type sector arc: { startAngle, endAngle, center }. -/
structure Sector where
  startAngle : ℚ
  endAngle : ℚ
  center : ℚ
deriving DecidableEq, Repr

/-- A pairCounts record of detectHyperRoutes: { count, edgeIds }. -/
structure PairData where
  count : Nat
  edgeIds : List String
deriving DecidableEq, Repr

/-- A hyper-route corridor: types, aggregate edgeCount, bridge node ids,
edge ids, display label and midpoint angle. -/
structure HyperRoute where
  type1 : String
  type2 : String
  edgeCount : Nat
  bridgeNodes : List String
  edgeIds : List String
  label : String
  midAngle : ℚ
deriving DecidableEq, Repr

/-- The short display name of a curated hazard type
(HAZARD_TYPES[t]?.short || t): only Meteorological and Hydrological has a
short name different from the type name itself. -/
def hazardShort (t : String) : String :=
  if t = "Meteorological and Hydrological" then "Met/Hydro" else t

/-- The canonical (lexicographically ordered) pair key of two types. -/
def canonPair (s t : String) : String × String :=
  if s < t then (s, t) else (t, s)

/-- One edge of the cross-type tally loop of detectHyperRoutes. The source
keys pairCounts by the template string typeA|||typeB with the types in
lexicographic order; the ordered pair itself is the key here (the encoding
round-trips). A missing typeName is the empty string, which the source
treats as falsy and skips. -/
def crossStep (nodeById : List (String × HNode))
    (st : List ((String × String) × PairData) × List (String × List (String × Nat)))
    (e : HEdgeData) :
    List ((String × String) × PairData) × List (String × List (String × Nat)) :=
  match getEntry nodeById e.source, getEntry nodeById e.target with
  | some srcNode, some tgtNode =>
    let srcType := srcNode.typeName
    let tgtType := tgtNode.typeName
    if srcType = "" ∨ tgtType = "" ∨ srcType = tgtType then st
    else
      let pairKey := canonPair srcType tgtType
      let pair := (getEntry st.1 pairKey).getD ⟨0, []⟩
      let pc := setEntry st.1 pairKey
        ⟨pair.count + 1,
         if pair.edgeIds.contains e.id then pair.edgeIds else pair.edgeIds ++ [e.id]⟩
      let m1 := (getEntry st.2 e.source).getD []
      let nc1 := setEntry st.2 e.source
        (setEntry m1 tgtType ((getEntry m1 tgtType).getD 0 + 1))
      let m2 := (getEntry nc1 e.target).getD []
      let nc2 := setEntry nc1 e.target
        (setEntry m2 srcType ((getEntry m2 srcType).getD 0 + 1))
      (pc, nc2)
  | _, _ => st

/-- The cross-type edge-count matrix and per-node cross-edge maps of
detectHyperRoutes, built in one pass over the edges. -/
def buildCrossMaps (nodeById : List (String × HNode)) (edges : List HEdgeData) :
    List ((String × String) × PairData) × List (String × List (String × Nat)) :=
  edges.foldl (crossStep nodeById) ([], [])

/-- The bridge-node collection loop for one qualifying type pair: a node
qualifies when its own cross-edge count toward the other type of the pair
reaches HYPER_ROUTE_BRIDGE_MIN. -/
def collectBridgeNodes (nodeById : List (String × HNode))
    (nodeCrossEdges : List (String × List (String × Nat)))
    (type1 type2 : String) : List String :=
  nodeCrossEdges.foldl (fun bs q =>
    match getEntry nodeById q.1 with
    | none => bs
    | some node =>
      if node.typeName = type1 ∧
          HYPER_ROUTE_BRIDGE_MIN ≤ (getEntry q.2 type2).getD 0 then bs ++ [q.1]
      else if node.typeName = type2 ∧
          HYPER_ROUTE_BRIDGE_MIN ≤ (getEntry q.2 type1).getD 0 then bs ++ [q.1]
      else bs) []

/-- The candidate-collection loop of detectHyperRoutes: pairs at or above
HYPER_ROUTE_EDGE_THRESHOLD become corridors with their bridge nodes,
display label and midpoint angle. -/
def collectCandidates (nodeById : List (String × HNode))
    (sectors : List (String × Sector))
    (maps : List ((String × String) × PairData) × List (String × List (String × Nat))) :
    List HyperRoute :=
  maps.1.foldl (fun acc p =>
    if p.2.count < HYPER_ROUTE_EDGE_THRESHOLD then acc
    else
      let type1 := p.1.1
      let type2 := p.1.2
      let bridgeNodes := collectBridgeNodes nodeById maps.2 type1 type2
      let midAngle : ℚ := match getEntry sectors type1, getEntry sectors type2 with
        | some s1, some s2 => (s1.center + s2.center) / 2
        | _, _ => 0
      acc ++ [⟨type1, type2, p.2.count, bridgeNodes, p.2.edgeIds,
        hazardShort type1 ++ " — " ++ hazardShort type2, midAngle⟩]) []

/-- detectHyperRoutes: tally cross-type edges, keep the pairs at or above
HYPER_ROUTE_EDGE_THRESHOLD, attach bridge nodes, label and midpoint angle,
sort by edge count descending and keep the top MAX_HYPER_ROUTES. The
unused nodes parameter is kept from the source signature. -/
def detectHyperRoutes (nodes : List HNode) (edges : List HEdgeData)
    (nodeById : List (String × HNode)) (sectors : List (String × Sector)) :
    List HyperRoute :=
  let maps := buildCrossMaps nodeById edges
  let candidates := collectCandidates nodeById sectors maps
  (sortDescBy (fun r => r.edgeCount) candidates).take MAX_HYPER_ROUTES

/-- The cross types of an edge when it qualifies for the tally: both
endpoints resolve, both types nonempty, types different. -/
def edgeCrossTypes (nodeById : List (String × HNode)) (e : HEdgeData) :
    Option (String × String) :=
  match getEntry nodeById e.source, getEntry nodeById e.target with
  | some srcNode, some tgtNode =>
    if srcNode.typeName = "" ∨ tgtNode.typeName = "" ∨ srcNode.typeName = tgtNode.typeName
    then none
    else some (srcNode.typeName, tgtNode.typeName)
  | _, _ => none

/-- The aggregate cross-category edge count of an unordered (canonically
ordered) type pair, counted directly over the input edge list: the
specification-level reading of a corridor's edge count. -/
def aggregateCrossCount (nodeById : List (String × HNode)) (edges : List HEdgeData)
    (p : String × String) : Nat :=
  (edges.filter (fun e =>
    match edgeCrossTypes nodeById e with
    | some (s, t) => decide (canonPair s t = p)
    | none => false)).length

/-- The cross-category edge count of one node toward one other category,
counted directly over the input edge list: the specification-level reading
of a bridge node's qualification. -/
def nodeCrossCount (nodeById : List (String × HNode)) (edges : List HEdgeData)
    (nid other : String) : Nat :=
  (edges.filter (fun e =>
    match edgeCrossTypes nodeById e with
    | some (s, t) => decide ((e.source = nid ∧ t = other) ∨ (e.target = nid ∧ s = other))
    | none => false)).length

/-- The recorded aggregate count of a pair key in the pairCounts map. -/
def pairCountAt (m : List ((String × String) × PairData)) (p : String × String) : Nat :=
  ((getEntry m p).map (fun d => d.count)).getD 0

/-- The recorded cross count of one node toward one type in nodeCrossEdges. -/
def nodeCrossAt (m : List (String × List (String × Nat))) (nid other : String) : Nat :=
  (getEntry ((getEntry m nid).getD []) other).getD 0

theorem keys_nodup_setEntry {κ ν : Type} [DecidableEq κ] {m : List (κ × ν)} (k : κ) (v : ν)
    (h : (m.map Prod.fst).Nodup) : ((setEntry m k v).map Prod.fst).Nodup := by
  induction m with
  | nil => simp [setEntry]
  | cons p t ih =>
    rcases List.pairwise_cons.mp h with ⟨hp, ht⟩
    by_cases hk : p.1 = k
    · rw [setEntry, if_pos hk]
      refine List.pairwise_cons.mpr ⟨?_, ht⟩
      intro y hy
      rw [← hk]
      exact hp y hy
    · rw [setEntry, if_neg hk]
      refine List.pairwise_cons.mpr ⟨?_, ih ht⟩
      intro y hy
      obtain ⟨q, hq, hqy⟩ := List.mem_map.mp hy
      rcases mem_setEntry hq with rfl | hq'
      · rw [← hqy]
        exact fun hh => hk hh
      · exact hp y (List.mem_map.mpr ⟨q, hq', hqy⟩)

theorem getEntry_of_mem_nodup {κ ν : Type} [DecidableEq κ] {m : List (κ × ν)} {k : κ} {v : ν}
    (hm : (k, v) ∈ m) (h : (m.map Prod.fst).Nodup) : getEntry m k = some v := by
  induction m with
  | nil => simp at hm
  | cons p t ih =>
    rcases List.pairwise_cons.mp h with ⟨hp, ht⟩
    rcases List.mem_cons.mp hm with rfl | hm'
    · simp [getEntry]
    · have hk : p.1 ≠ k := hp k (List.mem_map.mpr ⟨(k, v), hm', rfl⟩)
      rw [getEntry, if_neg hk]
      exact ih hm' ht

theorem crossStep_keys_nodup (nodeById : List (String × HNode))
    (st : List ((String × String) × PairData) × List (String × List (String × Nat)))
    (e : HEdgeData) (h1 : (st.1.map Prod.fst).Nodup) (h2 : (st.2.map Prod.fst).Nodup) :
    (((crossStep nodeById st e).1.map Prod.fst).Nodup) ∧
    (((crossStep nodeById st e).2.map Prod.fst).Nodup) := by
  unfold crossStep
  cases getEntry nodeById e.source with
  | none => exact ⟨h1, h2⟩
  | some srcNode =>
    cases getEntry nodeById e.target with
    | none => exact ⟨h1, h2⟩
    | some tgtNode =>
      dsimp only
      split
      · exact ⟨h1, h2⟩
      · exact ⟨keys_nodup_setEntry _ _ h1,
          keys_nodup_setEntry _ _ (keys_nodup_setEntry _ _ h2)⟩

theorem buildCrossMaps_keys_nodup (nodeById : List (String × HNode))
    (edges : List HEdgeData) :
    (((buildCrossMaps nodeById edges).1.map Prod.fst).Nodup) ∧
    (((buildCrossMaps nodeById edges).2.map Prod.fst).Nodup) := by
  unfold buildCrossMaps
  suffices h : ∀ (es : List HEdgeData)
      (st : List ((String × String) × PairData) × List (String × List (String × Nat))),
      (st.1.map Prod.fst).Nodup → (st.2.map Prod.fst).Nodup →
      (((es.foldl (crossStep nodeById) st).1.map Prod.fst).Nodup) ∧
      (((es.foldl (crossStep nodeById) st).2.map Prod.fst).Nodup) by
    exact h edges ([], []) (by simp) (by simp)
  intro es
  induction es with
  | nil => intro st h1 h2; exact ⟨h1, h2⟩
  | cons e rest ih =>
    intro st h1 h2
    rw [List.foldl_cons]
    obtain ⟨g1, g2⟩ := crossStep_keys_nodup nodeById st e h1 h2
    exact ih _ g1 g2

/-- The recorded pair count is the direct count of qualifying edges. -/
theorem crossMaps_pair_spec (nodeById : List (String × HNode)) :
    ∀ (edges : List HEdgeData)
      (st : List ((String × String) × PairData) × List (String × List (String × Nat)))
      (p : String × String),
      pairCountAt (edges.foldl (crossStep nodeById) st).1 p =
        pairCountAt st.1 p + aggregateCrossCount nodeById edges p := by
  intro edges
  induction edges with
  | nil => intro st p; simp [aggregateCrossCount]
  | cons e rest ih =>
    intro st p
    rw [List.foldl_cons, ih]
    have hagg : aggregateCrossCount nodeById (e :: rest) p =
        (if (match edgeCrossTypes nodeById e with
          | some (s, t) => decide (canonPair s t = p)
          | none => false) = true then 1 else 0) + aggregateCrossCount nodeById rest p := by
      unfold aggregateCrossCount
      rw [List.filter_cons]
      split <;> simp_all <;> omega
    rw [hagg]
    have hstep : pairCountAt (crossStep nodeById st e).1 p =
        pairCountAt st.1 p +
          (if (match edgeCrossTypes nodeById e with
            | some (s, t) => decide (canonPair s t = p)
            | none => false) = true then 1 else 0) := by
      unfold crossStep edgeCrossTypes
      cases getEntry nodeById e.source with
      | none => simp
      | some srcNode =>
        cases getEntry nodeById e.target with
        | none => simp
        | some tgtNode =>
          dsimp only
          by_cases hq : srcNode.typeName = "" ∨ tgtNode.typeName = "" ∨
              srcNode.typeName = tgtNode.typeName
          · rw [if_pos hq, if_pos hq]
            simp
          · rw [if_neg hq, if_neg hq]
            dsimp only
            by_cases hp : canonPair srcNode.typeName tgtNode.typeName = p
            · rw [hp]
              unfold pairCountAt
              rw [getEntry_setEntry_self]
              simp only [Option.map_some, Option.getD_some, decide_eq_true_eq, hp]
              cases hv : getEntry st.1 p with
              | none => simp [hv]
              | some d => simp [hv]
            · unfold pairCountAt
              rw [getEntry_setEntry_ne _ _ (fun hh => hp hh.symm)]
              simp [hp]
    omega

/-- The recorded per-node cross count is the direct count of qualifying
edges incident to the node toward the other type. -/
theorem crossMaps_node_spec (nodeById : List (String × HNode)) :
    ∀ (edges : List HEdgeData)
      (st : List ((String × String) × PairData) × List (String × List (String × Nat)))
      (nid other : String),
      nodeCrossAt (edges.foldl (crossStep nodeById) st).2 nid other =
        nodeCrossAt st.2 nid other + nodeCrossCount nodeById edges nid other := by
  intro edges
  induction edges with
  | nil => intro st nid other; simp [nodeCrossCount]
  | cons e rest ih =>
    intro st nid other
    rw [List.foldl_cons, ih]
    have hcnt : nodeCrossCount nodeById (e :: rest) nid other =
        (if (match edgeCrossTypes nodeById e with
          | some (s, t) =>
            decide ((e.source = nid ∧ t = other) ∨ (e.target = nid ∧ s = other))
          | none => false) = true then 1 else 0) +
          nodeCrossCount nodeById rest nid other := by
      unfold nodeCrossCount
      rw [List.filter_cons]
      split <;> simp_all <;> omega
    rw [hcnt]
    have hstep : nodeCrossAt (crossStep nodeById st e).2 nid other =
        nodeCrossAt st.2 nid other +
          (if (match edgeCrossTypes nodeById e with
            | some (s, t) =>
              decide ((e.source = nid ∧ t = other) ∨ (e.target = nid ∧ s = other))
            | none => false) = true then 1 else 0) := by
      unfold crossStep edgeCrossTypes
      cases hsrc : getEntry nodeById e.source with
      | none => simp
      | some srcNode =>
        cases htgt : getEntry nodeById e.target with
        | none => simp
        | some tgtNode =>
          dsimp only
          by_cases hq : srcNode.typeName = "" ∨ tgtNode.typeName = "" ∨
              srcNode.typeName = tgtNode.typeName
          · rw [if_pos hq, if_pos hq]
            simp
          · rw [if_neg hq, if_neg hq]
            dsimp only
            have hne : e.source ≠ e.target := by
              intro hst
              rw [hst, htgt] at hsrc
              have heq : tgtNode = srcNode := Option.some.inj hsrc
              rw [heq] at hq
              exact hq (Or.inr (Or.inr rfl))
            by_cases hnid1 : nid = e.source
            · subst hnid1
              unfold nodeCrossAt
              rw [getEntry_setEntry_ne _ _ hne, getEntry_setEntry_self]
              simp only [Option.getD_some]
              by_cases hot : other = tgtNode.typeName
              · subst hot
                rw [getEntry_setEntry_self]
                have htrue : ((e.source = e.source ∧ tgtNode.typeName = tgtNode.typeName) ∨
                    (e.target = e.source ∧ srcNode.typeName = tgtNode.typeName)) :=
                  Or.inl ⟨rfl, rfl⟩
                simp [htrue]
              · rw [getEntry_setEntry_ne _ _ hot]
                have hfalse : ¬ ((e.source = e.source ∧ tgtNode.typeName = other) ∨
                    (e.target = e.source ∧ srcNode.typeName = other)) := by
                  rintro (⟨_, h2⟩ | ⟨h1, _⟩)
                  · exact hot h2.symm
                  · exact hne h1.symm
                simp [hfalse]
                exact ⟨fun hh => hot hh.symm, fun h1 => absurd h1.symm hne⟩
            · by_cases hnid2 : nid = e.target
              · subst hnid2
                unfold nodeCrossAt
                rw [getEntry_setEntry_self]
                simp only [Option.getD_some]
                rw [getEntry_setEntry_ne _ _ (Ne.symm hne)]
                by_cases hot : other = srcNode.typeName
                · subst hot
                  rw [getEntry_setEntry_self]
                  have htrue : ((e.source = e.target ∧ tgtNode.typeName = srcNode.typeName) ∨
                      (e.target = e.target ∧ srcNode.typeName = srcNode.typeName)) :=
                    Or.inr ⟨rfl, rfl⟩
                  simp [htrue]
                · rw [getEntry_setEntry_ne _ _ hot]
                  have hfalse : ¬ ((e.source = e.target ∧ tgtNode.typeName = other) ∨
                      (e.target = e.target ∧ srcNode.typeName = other)) := by
                    rintro (⟨h1, _⟩ | ⟨_, h2⟩)
                    · exact hne h1
                    · exact hot h2.symm
                  simp [hfalse]
                  exact ⟨fun h1 => absurd h1 hne, fun hh => hot hh.symm⟩
              · unfold nodeCrossAt
                rw [getEntry_setEntry_ne _ _ hnid2, getEntry_setEntry_ne _ _ hnid1]
                have hfalse : ¬ ((e.source = nid ∧ tgtNode.typeName = other) ∨
                    (e.target = nid ∧ srcNode.typeName = other)) := by
                  rintro (⟨h1, _⟩ | ⟨h1, _⟩)
                  · exact hnid1 h1.symm
                  · exact hnid2 h1.symm
                simp [hfalse]
    omega

/-- Provenance of a collected bridge node: it is a key of nodeCrossEdges
whose resolved node type matches one side of the pair with the recorded
cross count toward the other side at or above the minimum. -/
theorem mem_collectBridgeNodes (nodeById : List (String × HNode))
    (nodeCrossEdges : List (String × List (String × Nat))) (type1 type2 : String)
    (b : String) (hb : b ∈ collectBridgeNodes nodeById nodeCrossEdges type1 type2) :
    ∃ q ∈ nodeCrossEdges, b = q.1 ∧ ∃ node, getEntry nodeById q.1 = some node ∧
      ((node.typeName = type1 ∧ HYPER_ROUTE_BRIDGE_MIN ≤ (getEntry q.2 type2).getD 0) ∨
       (node.typeName = type2 ∧ HYPER_ROUTE_BRIDGE_MIN ≤ (getEntry q.2 type1).getD 0)) := by
  have h := mem_foldl_of_step _
    (fun q b' => b' = q.1 ∧ ∃ node, getEntry nodeById q.1 = some node ∧
      ((node.typeName = type1 ∧ HYPER_ROUTE_BRIDGE_MIN ≤ (getEntry q.2 type2).getD 0) ∨
       (node.typeName = type2 ∧ HYPER_ROUTE_BRIDGE_MIN ≤ (getEntry q.2 type1).getD 0)))
    ?_ nodeCrossEdges [] b hb
  · rcases h with hin | ⟨q, hq, hp⟩
    · simp at hin
    · exact ⟨q, hq, hp⟩
  · intro acc q x hx
    cases hn : getEntry nodeById q.1 with
    | none =>
      rw [show (match getEntry nodeById q.1 with
        | none => acc
        | some node =>
          if node.typeName = type1 ∧
              HYPER_ROUTE_BRIDGE_MIN ≤ (getEntry q.2 type2).getD 0 then acc ++ [q.1]
          else if node.typeName = type2 ∧
              HYPER_ROUTE_BRIDGE_MIN ≤ (getEntry q.2 type1).getD 0 then acc ++ [q.1]
          else acc) = acc by rw [hn]] at hx
      exact Or.inl hx
    | some node =>
      rw [show (match getEntry nodeById q.1 with
        | none => acc
        | some node =>
          if node.typeName = type1 ∧
              HYPER_ROUTE_BRIDGE_MIN ≤ (getEntry q.2 type2).getD 0 then acc ++ [q.1]
          else if node.typeName = type2 ∧
              HYPER_ROUTE_BRIDGE_MIN ≤ (getEntry q.2 type1).getD 0 then acc ++ [q.1]
          else acc) =
        (if node.typeName = type1 ∧
            HYPER_ROUTE_BRIDGE_MIN ≤ (getEntry q.2 type2).getD 0 then acc ++ [q.1]
          else if node.typeName = type2 ∧
              HYPER_ROUTE_BRIDGE_MIN ≤ (getEntry q.2 type1).getD 0 then acc ++ [q.1]
          else acc) by rw [hn]] at hx
      split at hx
      next hc1 =>
        rcases List.mem_append.mp hx with hold | hnew
        · exact Or.inl hold
        · exact Or.inr ⟨by simpa using hnew, node, hn, Or.inl hc1⟩
      next =>
        split at hx
        next hc2 =>
          rcases List.mem_append.mp hx with hold | hnew
          · exact Or.inl hold
          · exact Or.inr ⟨by simpa using hnew, node, hn, Or.inr hc2⟩
        next => exact Or.inl hx

/-- Provenance of a collected corridor candidate: it comes from a
pairCounts entry at or above the aggregate threshold, carrying that
entry's types, count and the collected bridge nodes. -/
theorem mem_collectCandidates (nodeById : List (String × HNode))
    (sectors : List (String × Sector))
    (maps : List ((String × String) × PairData) × List (String × List (String × Nat)))
    (r : HyperRoute) (hr : r ∈ collectCandidates nodeById sectors maps) :
    ∃ p ∈ maps.1, HYPER_ROUTE_EDGE_THRESHOLD ≤ p.2.count ∧
      r.type1 = p.1.1 ∧ r.type2 = p.1.2 ∧ r.edgeCount = p.2.count ∧
      r.bridgeNodes = collectBridgeNodes nodeById maps.2 p.1.1 p.1.2 := by
  unfold collectCandidates at hr
  have h := mem_foldl_of_step _
    (fun p r' => HYPER_ROUTE_EDGE_THRESHOLD ≤ p.2.count ∧
      r'.type1 = p.1.1 ∧ r'.type2 = p.1.2 ∧ r'.edgeCount = p.2.count ∧
      r'.bridgeNodes = collectBridgeNodes nodeById maps.2 p.1.1 p.1.2)
    ?_ maps.1 [] r hr
  · rcases h with hin | ⟨p, hp, hP⟩
    · simp at hin
    · exact ⟨p, hp, hP⟩
  · intro acc p x hx
    split at hx
    next hlt => exact Or.inl hx
    next hge =>
      rcases List.mem_append.mp hx with hold | hnew
      · exact Or.inl hold
      · have hxr := by simpa using hnew
        subst hxr
        exact Or.inr ⟨Nat.le_of_not_lt hge, rfl, rfl, rfl, rfl⟩

/-- C5: every corridor detectHyperRoutes returns has an aggregate
cross-category edge count — equal to the direct count of qualifying edges
between its two categories — at or above HYPER_ROUTE_EDGE_THRESHOLD; every
listed bridge node resolves in the node lookup and has at least
HYPER_ROUTE_BRIDGE_MIN cross-category edges toward the corridor's other
category; and the returned list is sorted by edge count descending with
length at most MAX_HYPER_ROUTES. -/
theorem claim_C5_hyper_route_validity (nodes : List HNode) (edges : List HEdgeData)
    (nodeById : List (String × HNode)) (sectors : List (String × Sector)) :
    (∀ r ∈ detectHyperRoutes nodes edges nodeById sectors,
      r.edgeCount = aggregateCrossCount nodeById edges (r.type1, r.type2) ∧
      HYPER_ROUTE_EDGE_THRESHOLD ≤ r.edgeCount) ∧
    (∀ r ∈ detectHyperRoutes nodes edges nodeById sectors, ∀ b ∈ r.bridgeNodes,
      ∃ node, getEntry nodeById b = some node ∧
        ((node.typeName = r.type1 ∧
            HYPER_ROUTE_BRIDGE_MIN ≤ nodeCrossCount nodeById edges b r.type2) ∨
         (node.typeName = r.type2 ∧
            HYPER_ROUTE_BRIDGE_MIN ≤ nodeCrossCount nodeById edges b r.type1))) ∧
    ((detectHyperRoutes nodes edges nodeById sectors).Pairwise
      (fun a b => b.edgeCount ≤ a.edgeCount)) ∧
    (detectHyperRoutes nodes edges nodeById sectors).length ≤ MAX_HYPER_ROUTES := by
  have hnodup := buildCrossMaps_keys_nodup nodeById edges
  have hcand : ∀ r ∈ detectHyperRoutes nodes edges nodeById sectors,
      r ∈ collectCandidates nodeById sectors (buildCrossMaps nodeById edges) := by
    intro r hr
    exact (mem_sortDescBy _ _ r).mp (List.take_subset _ _ hr)
  refine ⟨?_, ?_, ?_, ?_⟩
  · intro r hr
    obtain ⟨p, hp, hthr, ht1, ht2, hcnt, _⟩ :=
      mem_collectCandidates nodeById sectors _ r (hcand r hr)
    have hget : getEntry (buildCrossMaps nodeById edges).1 p.1 = some p.2 := by
      have := getEntry_of_mem_nodup (m := (buildCrossMaps nodeById edges).1)
        (k := p.1) (v := p.2) ?_ hnodup.1
      · exact this
      · exact (by rcases p with ⟨a, b⟩; exact hp)
    have hpc : pairCountAt (buildCrossMaps nodeById edges).1 p.1 = p.2.count := by
      unfold pairCountAt
      rw [hget]
      rfl
    have hspec := crossMaps_pair_spec nodeById edges ([], []) p.1
    unfold buildCrossMaps at hget hpc
    rw [hpc] at hspec
    have hzero : pairCountAt ([] : List ((String × String) × PairData)) p.1 = 0 := rfl
    rw [hzero] at hspec
    have hpair : (r.type1, r.type2) = p.1 := by
      rcases p with ⟨⟨a, b⟩, d⟩
      simp_all
    rw [hpair, hcnt]
    exact ⟨by omega, hthr⟩
  · intro r hr b hb
    obtain ⟨p, hp, hthr, ht1, ht2, hcnt, hbr⟩ :=
      mem_collectCandidates nodeById sectors _ r (hcand r hr)
    rw [hbr] at hb
    obtain ⟨q, hq, rfl, node, hnode, hcond⟩ :=
      mem_collectBridgeNodes nodeById _ p.1.1 p.1.2 _ hb
    have hgetq : getEntry (buildCrossMaps nodeById edges).2 q.1 = some q.2 := by
      have := getEntry_of_mem_nodup (m := (buildCrossMaps nodeById edges).2)
        (k := q.1) (v := q.2) ?_ hnodup.2
      · exact this
      · exact (by rcases q with ⟨a, b⟩; exact hq)
    have hrel : ∀ other : String, (getEntry q.2 other).getD 0 =
        nodeCrossCount nodeById edges q.1 other := by
      intro other
      have hspec := crossMaps_node_spec nodeById edges ([], []) q.1 other
      have hzero : nodeCrossAt ([] : List (String × List (String × Nat))) q.1 other = 0 := rfl
      rw [hzero] at hspec
      have hat : nodeCrossAt (buildCrossMaps nodeById edges).2 q.1 other =
          (getEntry q.2 other).getD 0 := by
        unfold nodeCrossAt
        rw [hgetq]
        rfl
      unfold buildCrossMaps at hat
      omega
    refine ⟨node, hnode, ?_⟩
    rcases hcond with ⟨hty, hcnt2⟩ | ⟨hty, hcnt2⟩
    · left
      rw [ht1]
      refine ⟨hty, ?_⟩
      rw [ht2]
      rw [hrel p.1.2] at hcnt2
      exact hcnt2
    · right
      rw [ht2]
      refine ⟨hty, ?_⟩
      rw [ht1]
      rw [hrel p.1.1] at hcnt2
      exact hcnt2
  · exact List.Pairwise.sublist (List.take_sublist _ _) (sorted_sortDescBy _ _)
  · exact List.length_take_le _ _

/-! ## getHyperspaceLayout positions (src/graph/hyperspace-layout.js) -/

/-- A cartesian position. -/
structure Pos where
  x : ℚ
  y : ℚ
deriving DecidableEq, Repr

/-- The per-type node tally of computeTypeSectors: only the curated
TYPE_ORDER names are counted (typeCounts.has guards the increment). -/
def typeCountsOf (nodes : List HNode) : List (String × Nat) :=
  let typeCounts0 := TYPE_ORDER.foldl (fun m name => setEntry m name 0) []
  nodes.foldl (fun m n =>
    match getEntry m n.typeName with
    | some c => setEntry m n.typeName (c + 1)
    | none => m) typeCounts0

/-- One type of the sector-allocation loop: a zero-count type still gets a
degenerate zero-width sector so lookups never fail; otherwise the arc is
proportional to the count with 5 percent padding on each side. -/
def sectorStep (typeCounts : List (String × Nat)) (total piQ : ℚ)
    (st : List (String × Sector) × ℚ) (name : String) : List (String × Sector) × ℚ :=
  let count := (getEntry typeCounts name).getD 0
  if count = 0 then (setEntry st.1 name ⟨st.2, st.2, st.2⟩, st.2)
  else
    let arc := ((count : ℚ) / total) * (2 * piQ)
    let padded := arc * (9 / 10)
    let padOffset := arc * (1 / 20)
    (setEntry st.1 name ⟨st.2 + padOffset, st.2 + padOffset + padded, st.2 + arc / 2⟩,
     st.2 + arc)

/-- computeTypeSectors: angular sector arcs per curated type, proportional
to membership; total falls back to 1 on an empty node list. The float
constant Math.PI is the abstract rational parameter piQ. -/
def computeTypeSectors (piQ : ℚ) (nodes : List HNode) : List (String × Sector) :=
  let total : ℚ := if nodes.length = 0 then 1 else (nodes.length : ℚ)
  (TYPE_ORDER.foldl (sectorStep (typeCountsOf nodes) total piQ) ([], 0)).1

/-- The within-group angular parameter t of getHyperspaceLayout: a
singleton group sits at the sector midpoint, the most-connected member of
a larger group at the center, later members alternating symmetrically
outward (Math.ceil of a half is Nat division rounding up). -/
def withinGroupT (len i : Nat) : ℚ :=
  if len = 1 then 1 / 2
  else if i = 0 then 1 / 2
  else if i % 2 = 1 then
    1 / 2 - ((((i + 1) / 2 : Nat) : ℚ) / ((((len + 1) / 2 : Nat) : ℚ) + 1)) * (1 / 2)
  else
    1 / 2 + ((((i + 1) / 2 : Nat) : ℚ) / ((((len + 1) / 2 : Nat) : ℚ) + 1)) * (1 / 2)

/-- ORBIT_RADII[orbit] || ORBIT_RADII[6]: an out-of-range index or a zero
entry (both falsy in JavaScript) falls back to the rim radius; an absent
orbit value behaves like the out-of-range index. -/
def orbitRadius (orbit : Option Nat) : ℚ :=
  match orbit with
  | some o => if ORBIT_RADII.getD o 0 = 0 then ORBIT_RADII.getD 6 0 else ORBIT_RADII.getD o 0
  | none => ORBIT_RADII.getD 6 0

/-- ORBIT_JITTER[orbit] || ORBIT_JITTER[6], as for orbitRadius. -/
def orbitJitterMag (orbit : Option Nat) : ℚ :=
  match orbit with
  | some o => if ORBIT_JITTER.getD o 0 = 0 then ORBIT_JITTER.getD 6 0 else ORBIT_JITTER.getD o 0
  | none => ORBIT_JITTER.getD 6 0

/-- The grouping of nodes by (orbit, typeName-with-Unknown-default). The
source encodes the key as the template string orbit:typeName and decodes
it by splitting on the first colon; the pair itself is the key here (the
orbit digits contain no colon, so the encoding round-trips). -/
def hyperspaceGroups (nodes : List HNode) (orbitMap : List (String × Nat)) :
    List ((Option Nat × String) × List HNode) :=
  nodes.foldl (fun g n =>
    pushEntry g (getEntry orbitMap n.id,
      if n.typeName = "" then "Unknown" else n.typeName) n) []

/-- Place one connectivity-sorted group inside its sector: angle from the
alternating within-group parameter, radius jittered deterministically by
the node id. Math.cos and Math.sin are the abstract parameters cosF and
sinF (every IEEE double is a rational, and both are pure functions). -/
def placeGroup (cosF sinF : ℚ → ℚ) (orbit : Option Nat) (sector : Sector)
    (group : List HNode) (positions : List (String × Pos)) : List (String × Pos) :=
  let radius := orbitRadius orbit
  let jitterMag := orbitJitterMag orbit
  let arcSpan := sector.endAngle - sector.startAngle
  group.enum.foldl (fun pos q =>
    let angle := sector.startAngle + arcSpan * withinGroupT group.length q.1
    let r := radius + jitterMag * seededJitter q.2.id
    setEntry pos q.2.id ⟨r * cosF angle, r * sinF angle⟩) positions

/-- The positions map computed by getHyperspaceLayout: orbits assigned,
sectors computed, nodes grouped by (orbit, type) and sorted by
connectionCount descending, each group placed inside its sector; a group
whose type has no sector (a non-curated category) or that is empty is
skipped. -/
def getHyperspaceLayoutPositions (piQ : ℚ) (cosF sinF : ℚ → ℚ) (nodes : List HNode) :
    List (String × Pos) :=
  let orbitMap := assignOrbits nodes
  let sectors := computeTypeSectors piQ nodes
  let groups := hyperspaceGroups nodes orbitMap
  let groupsSorted := groups.map
    (fun p => (p.1, sortDescBy (fun n => n.connectionCount) p.2))
  groupsSorted.foldl (fun positions p =>
    match getEntry sectors p.1.2 with
    | none => positions
    | some sector =>
      if p.2.isEmpty then positions
      else placeGroup cosF sinF p.1.1 sector p.2 positions) []

/-- The positions accessor of the returned layout object:
positions[node.id()] || { x: 0, y: 0 }. -/
def posLookup (positions : List (String × Pos)) (id : String) : Pos :=
  (getEntry positions id).getD ⟨0, 0⟩

/-! ## computeRadialLayout type arcs (src/views/edge-bundling/layout.js)

The d3 cluster layout positions the hierarchy root > type > cluster >
hazard and assigns every node an angular coordinate x; computeRadialLayout
then derives the per-type arcs purely from the leaf x positions. The
cluster layout itself is modelled as an abstract function from the radius
to a positioned tree (it is a pure library function of treeData and
radius); the arc derivation below is the code under verification. -/

/-- A positioned leaf (hazard) of the d3 hierarchy: name and angular x. -/
structure PosLeaf where
  name : String
  x : ℚ
deriving DecidableEq, Repr

/-- A positioned cluster node with its leaf children. -/
structure PosCluster where
  name : String
  x : ℚ
  children : List PosLeaf
deriving DecidableEq, Repr

/-- A positioned type node with data fields typeName, color, label. -/
structure PosType where
  typeName : String
  color : String
  label : String
  x : ℚ
  children : List PosCluster
deriving DecidableEq, Repr

/-- The positioned hierarchy root. -/
structure PosRoot where
  children : List PosType
deriving DecidableEq, Repr

/-- One entry of the typeArcs map of computeRadialLayout. -/
structure TypeArc where
  startAngle : ℚ
  endAngle : ℚ
  centerAngle : ℚ
  color : String
  label : String
  nodeCount : Nat
deriving DecidableEq, Repr

/-- d3 leaves() of a cluster subtree: its leaf descendants; a childless
node is itself a leaf. -/
def clusterLeaves (c : PosCluster) : List PosLeaf :=
  if c.children.isEmpty then [⟨c.name, c.x⟩] else c.children

/-- d3 leaves() of a type subtree. -/
def typeLeavesOf (t : PosType) : List PosLeaf :=
  if t.children.isEmpty then [⟨t.typeName, t.x⟩]
  else (t.children.map clusterLeaves).flatten

/-- Math.min over a spread nonempty list (the code only evaluates it on
nonempty lists, guarded by the length check; the nil value is arbitrary). -/
def minQ : List ℚ → ℚ
  | [] => 0
  | a :: t => t.foldl min a

/-- Math.max over a spread nonempty list, as for minQ. -/
def maxQ : List ℚ → ℚ
  | [] => 0
  | a :: t => t.foldl max a

/-- The type arc computed for one type node: leaf-position extent plus
half the leaf spacing of padding on each side; a single-leaf type falls
back to the fixed spacing 2 instead of dividing by length - 1. -/
def arcOf (t : PosType) : TypeArc :=
  let typeLeaves := typeLeavesOf t
  let angles := typeLeaves.map (fun l => l.x)
  let minAngle := minQ angles
  let maxAngle := maxQ angles
  let leafSpacing :=
    if 1 < typeLeaves.length then (maxAngle - minAngle) / ((typeLeaves.length : ℚ) - 1)
    else 2
  let padding := leafSpacing * (1 / 2)
  ⟨minAngle - padding, maxAngle + padding, (minAngle + maxAngle) / 2,
   t.color, t.label, typeLeaves.length⟩

/-- The typeArcs map of computeRadialLayout: one arc per type node with at
least one leaf. -/
def typeArcsOf (root : PosRoot) : List (String × TypeArc) :=
  root.children.foldl (fun arcs typeNode =>
    if (typeLeavesOf typeNode).isEmpty then arcs
    else setEntry arcs typeNode.typeName (arcOf typeNode)) []

/-- computeRadialLayout, projected to the typeArcs component of its
result (root and leaves are direct projections of the cluster layout, and
clusterArcs is derived the same way from cluster leaves; no claim
concerns them). -/
def computeRadialLayout (clusterLayout : ℚ → PosRoot) (radius : ℚ) :
    List (String × TypeArc) :=
  typeArcsOf (clusterLayout radius)

/-! ## Provenance of sector keys, groups and positions -/

/-- Every key of the sector-allocation fold comes from the previous state
or from the iterated name list. -/
theorem sectorFold_keys (tc : List (String × Nat)) (total piQ : ℚ) :
    ∀ (l : List String) (st : List (String × Sector) × ℚ) (x : String × Sector),
      x ∈ (l.foldl (sectorStep tc total piQ) st).1 → x ∈ st.1 ∨ x.1 ∈ l := by
  intro l
  induction l with
  | nil => intro st x hx; exact Or.inl hx
  | cons name rest ih =>
    intro st x hx
    rw [List.foldl_cons] at hx
    rcases ih (sectorStep tc total piQ st name) x hx with h | h
    · have h2 : x.1 = name ∨ x ∈ st.1 := by
        dsimp only [sectorStep] at h
        split at h
        · rcases mem_setEntry h with h3 | h3
          · exact Or.inl (by rw [h3])
          · exact Or.inr h3
        · rcases mem_setEntry h with h3 | h3
          · exact Or.inl (by rw [h3])
          · exact Or.inr h3
      rcases h2 with h2 | h2
      · exact Or.inr (h2 ▸ List.mem_cons_self _ _)
      · exact Or.inl h2
    · exact Or.inr (List.mem_cons_of_mem _ h)

/-- Every type name carrying a sector is one of the curated TYPE_ORDER
names: computeTypeSectors iterates only over TYPE_ORDER. -/
theorem computeTypeSectors_key_mem (piQ : ℚ) (nodes : List HNode) {t : String} {s : Sector}
    (h : getEntry (computeTypeSectors piQ nodes) t = some s) : t ∈ TYPE_ORDER := by
  have hm := getEntry_eq_some_mem h
  dsimp only [computeTypeSectors] at hm
  rcases sectorFold_keys (typeCountsOf nodes)
      (if nodes.length = 0 then 1 else (nodes.length : ℚ)) piQ TYPE_ORDER ([], 0) (t, s) hm with
    h1 | h1
  · simp at h1
  · exact h1

/-- Every member of every (orbit, type) group is one of the input nodes
and its defaulted type name is the group key's type component. -/
theorem hyperspaceGroups_sound (nodes : List HNode) (orbitMap : List (String × Nat)) :
    ∀ q ∈ hyperspaceGroups nodes orbitMap, ∀ n ∈ q.2,
      n ∈ nodes ∧ (if n.typeName = "" then "Unknown" else n.typeName) = q.1.2 := by
  have main : ∀ (l : List HNode) (g : List ((Option Nat × String) × List HNode)),
      (∀ x ∈ l, x ∈ nodes) →
      (∀ q ∈ g, ∀ n ∈ q.2,
        n ∈ nodes ∧ (if n.typeName = "" then "Unknown" else n.typeName) = q.1.2) →
      ∀ q ∈ l.foldl (fun g n =>
          pushEntry g (getEntry orbitMap n.id,
            if n.typeName = "" then "Unknown" else n.typeName) n) g,
        ∀ n ∈ q.2,
          n ∈ nodes ∧ (if n.typeName = "" then "Unknown" else n.typeName) = q.1.2 := by
    intro l
    induction l with
    | nil => intro g _ hg q hq; exact hg q hq
    | cons a t ih =>
      intro g hl hg q hq
      rw [List.foldl_cons] at hq
      refine ih _ (fun x hx => hl x (List.mem_cons_of_mem _ hx)) ?_ q hq
      intro q' hq' n hn
      have hq2 : q' ∈ setEntry g
          (getEntry orbitMap a.id, if a.typeName = "" then "Unknown" else a.typeName)
          ((getEntry g (getEntry orbitMap a.id,
            if a.typeName = "" then "Unknown" else a.typeName)).getD [] ++ [a]) := hq'
      rcases mem_setEntry hq2 with h1 | h1
      · subst h1
        rcases List.mem_append.mp hn with h2 | h2
        · cases hv : getEntry g (getEntry orbitMap a.id,
              if a.typeName = "" then "Unknown" else a.typeName) with
          | none => rw [hv] at h2; simp at h2
          | some lst =>
            rw [hv] at h2
            exact hg _ (getEntry_eq_some_mem hv) n (by simpa using h2)
        · have h3 : n = a := by simpa using h2
          subst h3
          exact ⟨hl n (List.mem_cons_self _ _), rfl⟩
      · exact hg q' h1 n hn
  intro q hq
  exact main nodes [] (fun x hx => hx) (by intro q hq; simp at hq) q hq

/-- Every key added by placeGroup is the id of a member of the placed
group. -/
theorem placeGroup_keys (cosF sinF : ℚ → ℚ) (orbit : Option Nat) (sector : Sector)
    (group : List HNode) (positions : List (String × Pos)) :
    ∀ x ∈ placeGroup cosF sinF orbit sector group positions,
      x ∈ positions ∨ ∃ n ∈ group, n.id = x.1 := by
  intro x hx
  dsimp only [placeGroup] at hx
  have hstep : ∀ (acc : List (String × Pos)) (q : Nat × HNode) (y : String × Pos),
      y ∈ (fun pos (q : Nat × HNode) =>
          setEntry pos q.2.id
            ⟨(orbitRadius orbit + orbitJitterMag orbit * seededJitter q.2.id) *
                cosF (sector.startAngle +
                  (sector.endAngle - sector.startAngle) * withinGroupT group.length q.1),
              (orbitRadius orbit + orbitJitterMag orbit * seededJitter q.2.id) *
                sinF (sector.startAngle +
                  (sector.endAngle - sector.startAngle) * withinGroupT group.length q.1)⟩)
        acc q →
      y ∈ acc ∨ q.2.id = y.1 := by
    intro acc q y hy
    rcases mem_setEntry hy with h | h
    · exact Or.inr (by rw [h])
    · exact Or.inl h
  rcases mem_foldl_of_step _ _ hstep group.enum positions x hx with h | ⟨q, hq, hP⟩
  · exact Or.inl h
  · exact Or.inr ⟨q.2, snd_mem_of_mem_enum hq, hP⟩

/-- Every key of the hyperspace positions map is the id of an input node
whose defaulted type name is curated (otherwise the group has no sector
and is skipped). -/
theorem hyperspacePositions_keys (piQ : ℚ) (cosF sinF : ℚ → ℚ) (nodes : List HNode) :
    ∀ x ∈ getHyperspaceLayoutPositions piQ cosF sinF nodes,
      ∃ n ∈ nodes, n.id = x.1 ∧
        (if n.typeName = "" then "Unknown" else n.typeName) ∈ TYPE_ORDER := by
  have main : ∀ (l : List ((Option Nat × String) × List HNode))
      (acc : List (String × Pos)),
      (∀ p ∈ l, p ∈ (hyperspaceGroups nodes (assignOrbits nodes)).map
          (fun p => (p.1, sortDescBy (fun n => n.connectionCount) p.2))) →
      (∀ x ∈ acc, ∃ n ∈ nodes, n.id = x.1 ∧
          (if n.typeName = "" then "Unknown" else n.typeName) ∈ TYPE_ORDER) →
      ∀ x ∈ l.foldl (fun positions p =>
          match getEntry (computeTypeSectors piQ nodes) p.1.2 with
          | none => positions
          | some sector =>
            if p.2.isEmpty then positions
            else placeGroup cosF sinF p.1.1 sector p.2 positions) acc,
        ∃ n ∈ nodes, n.id = x.1 ∧
          (if n.typeName = "" then "Unknown" else n.typeName) ∈ TYPE_ORDER := by
    intro l
    induction l with
    | nil => intro acc _ hacc x hx; exact hacc x hx
    | cons p t ih =>
      intro acc hl hacc x hx
      rw [List.foldl_cons] at hx
      refine ih _ (fun p' hp' => hl p' (List.mem_cons_of_mem _ hp')) ?_ x hx
      intro y hy
      cases hsec : getEntry (computeTypeSectors piQ nodes) p.1.2 with
      | none =>
        simp only [hsec] at hy
        exact hacc y hy
      | some sector =>
        simp only [hsec] at hy
        by_cases hemp : p.2.isEmpty
        · rw [if_pos hemp] at hy
          exact hacc y hy
        · rw [if_neg hemp] at hy
          rcases placeGroup_keys cosF sinF p.1.1 sector p.2 acc y hy with h | ⟨n, hn, hid⟩
          · exact hacc y h
          · rcases List.mem_map.mp (hl p (List.mem_cons_self _ _)) with ⟨p0, hp0, hfp⟩
            have hkey : p0.1 = p.1 := by rw [← hfp]
            have hgrp : p.2 = sortDescBy (fun n => n.connectionCount) p0.2 := by rw [← hfp]
            have hn0 : n ∈ p0.2 := by
              rw [hgrp] at hn
              exact (mem_sortDescBy _ _ _).mp hn
            have hsound := hyperspaceGroups_sound nodes (assignOrbits nodes) p0 hp0 n hn0
            refine ⟨n, hsound.1, hid, ?_⟩
            rw [hsound.2, hkey]
            exact computeTypeSectors_key_mem piQ nodes hsec
  intro x hx
  dsimp only [getHyperspaceLayoutPositions] at hx
  exact main _ [] (fun p hp => hp) (by intro y hy; simp at hy) x hx

/-- C10: the orbital layout position lookup is total: an id with no
explicit entry falls back to the origin, and with distinct node ids an
entity whose defaulted category is not one of the eight curated TYPE_ORDER
categories gets no explicit position at all, so its lookup yields (0, 0)
rather than failing. -/
theorem claim_C10_position_lookup_total (piQ : ℚ) (cosF sinF : ℚ → ℚ)
    (nodes : List HNode) (hids : (nodes.map (fun n => n.id)).Nodup) :
    (∀ id : String,
        getEntry (getHyperspaceLayoutPositions piQ cosF sinF nodes) id = none →
        posLookup (getHyperspaceLayoutPositions piQ cosF sinF nodes) id = ⟨0, 0⟩) ∧
    ∀ n ∈ nodes, (if n.typeName = "" then "Unknown" else n.typeName) ∉ TYPE_ORDER →
      getEntry (getHyperspaceLayoutPositions piQ cosF sinF nodes) n.id = none ∧
      posLookup (getHyperspaceLayoutPositions piQ cosF sinF nodes) n.id = ⟨0, 0⟩ := by
  constructor
  · intro id h
    rw [posLookup, h]
    rfl
  · intro n hn hcat
    have hnone : getEntry (getHyperspaceLayoutPositions piQ cosF sinF nodes) n.id = none := by
      cases hget : getEntry (getHyperspaceLayoutPositions piQ cosF sinF nodes) n.id with
      | none => rfl
      | some pos =>
        exfalso
        rcases hyperspacePositions_keys piQ cosF sinF nodes (n.id, pos)
            (getEntry_eq_some_mem hget) with ⟨n', hn', hid, hcat'⟩
        have : n' = n := eq_of_nodup_map_key hids hn' hn hid
        rw [this] at hcat'
        exact hcat hcat'
    refine ⟨hnone, ?_⟩
    rw [posLookup, hnone]
    rfl

/-- C10 at a concrete input: a single node of the non-curated category
Martian, with distinct ids, positioned by the layout with piQ = 3 and
constant trigonometric parameters. -/
theorem claim_C10_position_lookup_total_witness :
    ((([⟨"u", "Martian", 3⟩] : List HNode).map (fun n => n.id)).Nodup) ∧
    ((∀ id : String,
        getEntry (getHyperspaceLayoutPositions 3 (fun _ => 1) (fun _ => 0)
          [⟨"u", "Martian", 3⟩]) id = none →
        posLookup (getHyperspaceLayoutPositions 3 (fun _ => 1) (fun _ => 0)
          [⟨"u", "Martian", 3⟩]) id = ⟨0, 0⟩) ∧
      ∀ n ∈ ([⟨"u", "Martian", 3⟩] : List HNode),
        (if n.typeName = "" then "Unknown" else n.typeName) ∉ TYPE_ORDER →
        getEntry (getHyperspaceLayoutPositions 3 (fun _ => 1) (fun _ => 0)
          [⟨"u", "Martian", 3⟩]) n.id = none ∧
        posLookup (getHyperspaceLayoutPositions 3 (fun _ => 1) (fun _ => 0)
          [⟨"u", "Martian", 3⟩]) n.id = ⟨0, 0⟩) :=
  ⟨by decide,
   claim_C10_position_lookup_total 3 (fun _ => 1) (fun _ => 0)
     [⟨"u", "Martian", 3⟩] (by decide)⟩

/-- Every entry of the typeArcs map is the arc computed for one of the
root's type children with a nonempty leaf list. -/
theorem mem_typeArcsOf (root : PosRoot) :
    ∀ x ∈ typeArcsOf root,
      ∃ t ∈ root.children, ¬(typeLeavesOf t).isEmpty = true ∧ x = (t.typeName, arcOf t) := by
  intro x hx
  dsimp only [typeArcsOf] at hx
  have hstep : ∀ (acc : List (String × TypeArc)) (t : PosType) (y : String × TypeArc),
      y ∈ (fun arcs typeNode =>
          if (typeLeavesOf typeNode).isEmpty then arcs
          else setEntry arcs typeNode.typeName (arcOf typeNode)) acc t →
      y ∈ acc ∨ (¬(typeLeavesOf t).isEmpty = true ∧ y = (t.typeName, arcOf t)) := by
    intro acc t y hy
    dsimp only at hy
    by_cases hemp : (typeLeavesOf t).isEmpty
    · rw [if_pos hemp] at hy
      exact Or.inl hy
    · rw [if_neg hemp] at hy
      rcases mem_setEntry hy with h | h
      · exact Or.inr ⟨hemp, h⟩
      · exact Or.inl h
  rcases mem_foldl_of_step _ _ hstep root.children [] x hx with h | h
  · simp at h
  · exact h

/-- The arc of a type with exactly one leaf: spacing falls back to the
constant 2, so the padding is 1 and the arc is the leaf angle plus or
minus 1 with the leaf angle as center. -/
theorem arcOf_singleton (t : PosType) {l : PosLeaf} (h : typeLeavesOf t = [l]) :
    arcOf t = ⟨l.x - 1, l.x + 1, l.x, t.color, t.label, 1⟩ := by
  dsimp only [arcOf]
  rw [h]
  simp only [List.map_cons, List.map_nil, minQ, maxQ, List.foldl_nil, List.length_cons,
    List.length_nil]
  rw [if_neg (by norm_num)]
  simp only [TypeArc.mk.injEq]
  refine ⟨by ring, by ring, by ring, trivial, trivial, trivial⟩

/-- C9: one-member groups never divide by (count - 1) = 0. A type arc
with a single leaf uses the fixed fallback spacing (padding 1 around the
leaf angle, centered on it); in the multi-leaf branch the divisor
length - 1 is nonzero; the within-group divisor half + 1 of the
hyperspace layout is never zero; and a single entity in an (orbit, type)
cell gets t = 1/2, landing exactly at the sector angular midpoint. -/
theorem claim_C9_single_member_guards :
    (∀ (clusterLayout : ℚ → PosRoot) (radius : ℚ) (name : String) (arc : TypeArc),
        getEntry (computeRadialLayout clusterLayout radius) name = some arc →
        arc.nodeCount = 1 →
        ∃ x : ℚ, arc.startAngle = x - 1 ∧ arc.endAngle = x + 1 ∧ arc.centerAngle = x) ∧
    (∀ t : PosType, 1 < (typeLeavesOf t).length →
        (((typeLeavesOf t).length : ℚ) - 1) ≠ 0) ∧
    (∀ len : Nat, ((((len + 1) / 2 : Nat) : ℚ) + 1) ≠ 0) ∧
    withinGroupT 1 0 = 1 / 2 ∧
    (∀ (cosF sinF : ℚ → ℚ) (orbit : Option Nat) (sector : Sector) (n : HNode),
        placeGroup cosF sinF orbit sector [n] [] =
          [(n.id,
            ⟨(orbitRadius orbit + orbitJitterMag orbit * seededJitter n.id) *
                cosF ((sector.startAngle + sector.endAngle) / 2),
              (orbitRadius orbit + orbitJitterMag orbit * seededJitter n.id) *
                sinF ((sector.startAngle + sector.endAngle) / 2)⟩)]) := by
  refine ⟨?_, ?_, ?_, ?_, ?_⟩
  · intro clusterLayout radius name arc hget hcount
    have hm := getEntry_eq_some_mem hget
    dsimp only [computeRadialLayout] at hm
    rcases mem_typeArcsOf (clusterLayout radius) (name, arc) hm with ⟨t, _, _, heq⟩
    have harc : arc = arcOf t := congrArg Prod.snd heq
    have hlen : (typeLeavesOf t).length = 1 := by
      have : (arcOf t).nodeCount = (typeLeavesOf t).length := rfl
      rw [harc, this] at hcount
      exact hcount
    rcases List.length_eq_one.mp hlen with ⟨l, hl⟩
    rw [harc, arcOf_singleton t hl]
    exact ⟨l.x, rfl, rfl, rfl⟩
  · intro t h
    have h2 : (1 : ℚ) < ((typeLeavesOf t).length : ℚ) := by exact_mod_cast h
    intro hz
    linarith
  · intro len
    positivity
  · norm_num [withinGroupT]
  · intro cosF sinF orbit sector n
    have hangle : sector.startAngle +
        (sector.endAngle - sector.startAngle) * withinGroupT 1 0 =
        (sector.startAngle + sector.endAngle) / 2 := by
      norm_num [withinGroupT]
      ring
    dsimp only [placeGroup, List.enum, List.enumFrom, List.foldl]
    have h1 : ([n] : List HNode).length = 1 := rfl
    rw [h1, hangle]
    rfl

/-- C7: layout computation is deterministic. Each layout builder is a
pure function of its inputs (the node and edge lists, the abstract
trigonometric and cluster-layout parameters): running it twice on equal
inputs gives identical position maps, identical hyper-route lists,
identical type arcs, identical declared/inferred adjacency indices, and
identical per-entity jitter; no builder reads a clock, a random source or
any other ambient state. -/
theorem claim_C7_layout_determinism :
    (∀ (piQ piQ2 : ℚ) (cosF cosF2 sinF sinF2 : ℚ → ℚ) (nodes nodes2 : List HNode),
        piQ = piQ2 → cosF = cosF2 → sinF = sinF2 → nodes = nodes2 →
        getHyperspaceLayoutPositions piQ cosF sinF nodes =
          getHyperspaceLayoutPositions piQ2 cosF2 sinF2 nodes2) ∧
    (∀ (nodes nodes2 : List HNode) (edges edges2 : List HEdgeData)
        (nodeById nodeById2 : List (String × HNode))
        (sectors sectors2 : List (String × Sector)),
        nodes = nodes2 → edges = edges2 → nodeById = nodeById2 → sectors = sectors2 →
        detectHyperRoutes nodes edges nodeById sectors =
          detectHyperRoutes nodes2 edges2 nodeById2 sectors2) ∧
    (∀ (clusterLayout clusterLayout2 : ℚ → PosRoot) (radius radius2 : ℚ),
        clusterLayout = clusterLayout2 → radius = radius2 →
        computeRadialLayout clusterLayout radius =
          computeRadialLayout clusterLayout2 radius2) ∧
    (∀ (nodes nodes2 : List SnapNode) (edges edges2 : List SnapEdge),
        nodes = nodes2 → edges = edges2 →
        buildAdjacencyIndex nodes edges = buildAdjacencyIndex nodes2 edges2) ∧
    (∀ id id2 : String, id = id2 → seededJitter id = seededJitter id2) := by
  refine ⟨?_, ?_, ?_, ?_, ?_⟩
  · intro piQ piQ2 cosF cosF2 sinF sinF2 nodes nodes2 h1 h2 h3 h4
    rw [h1, h2, h3, h4]
  · intro nodes nodes2 edges edges2 nodeById nodeById2 sectors sectors2 h1 h2 h3 h4
    rw [h1, h2, h3, h4]
  · intro clusterLayout clusterLayout2 radius radius2 h1 h2
    rw [h1, h2]
  · intro nodes nodes2 edges edges2 h1 h2
    rw [h1, h2]
  · intro id id2 h
    rw [h]

end Hips
